import Mathlib

/-!
Shallow embedding of `UTILS/validate_repo.py` (repository validation engine of
the Altered Knowledge Source repository), together with theorems settling the
frozen claims about it.

Modelling conventions:
* Parsed JSON documents are modelled by the inductive `Json`.  JSON numbers are
  modelled as integers (`Int`); the repository's data and all claims only
  involve integer-valued numbers.  Python's `bool` is a subclass of `int`, so
  `isinstance(x, int)` is true for booleans; `pyIsInt`/`pyToInt` reproduce
  that.
* Python truthiness of parsed-JSON values is `pyTruthy`; Python `==` between
  parsed-JSON values is `pyEq` (with the numeric `True == 1` coercion;
  dictionaries are compared structurally, which is adequate because parsed
  objects carry canonically ordered unique keys).
* Exceptions that the Python code can raise (`TypeError` from `re.match` on a
  non-string, or from using an unhashable value as a dict key;
  `AttributeError` from `.strip()`/`.upper()` on a non-string) are modelled
  explicitly with `PyErr`; a validator returns the findings accumulated before
  the exception plus the exception itself, mirroring the mutable
  `ctx.findings` list surviving a raise.
* The file system is abstracted: the lazy card search `ctx.root.rglob(...)`
  yields a fixed list `tree : List Json` of the parsed contents of the card
  files, in traversal order.
* Finding messages are structured (`Msg`), each constructor carrying exactly
  the values the corresponding Python f-string interpolates.
-/

inductive Json where
  | null : Json
  | bool : Bool → Json
  | num : Int → Json
  | str : String → Json
  | arr : List Json → Json
  | obj : List (String × Json) → Json
deriving Repr

namespace Json

mutual
/-- Decidable equality for `Json` (hand-written: the nested lists prevent
automatic derivation). -/
def decEqJ : (a b : Json) → Decidable (a = b)
  | .null, .null => isTrue rfl
  | .null, .bool _ => isFalse nofun
  | .null, .num _ => isFalse nofun
  | .null, .str _ => isFalse nofun
  | .null, .arr _ => isFalse nofun
  | .null, .obj _ => isFalse nofun
  | .bool _, .null => isFalse nofun
  | .bool x, .bool y =>
    if h : x = y then isTrue (by rw [h]) else isFalse (by simp [h])
  | .bool _, .num _ => isFalse nofun
  | .bool _, .str _ => isFalse nofun
  | .bool _, .arr _ => isFalse nofun
  | .bool _, .obj _ => isFalse nofun
  | .num _, .null => isFalse nofun
  | .num _, .bool _ => isFalse nofun
  | .num x, .num y =>
    if h : x = y then isTrue (by rw [h]) else isFalse (by simp [h])
  | .num _, .str _ => isFalse nofun
  | .num _, .arr _ => isFalse nofun
  | .num _, .obj _ => isFalse nofun
  | .str _, .null => isFalse nofun
  | .str _, .bool _ => isFalse nofun
  | .str _, .num _ => isFalse nofun
  | .str x, .str y =>
    if h : x = y then isTrue (by rw [h]) else isFalse (by simp [h])
  | .str _, .arr _ => isFalse nofun
  | .str _, .obj _ => isFalse nofun
  | .arr _, .null => isFalse nofun
  | .arr _, .bool _ => isFalse nofun
  | .arr _, .num _ => isFalse nofun
  | .arr _, .str _ => isFalse nofun
  | .arr x, .arr y =>
    match decEqJL x y with
    | isTrue h => isTrue (by rw [h])
    | isFalse h => isFalse (by simp [h])
  | .arr _, .obj _ => isFalse nofun
  | .obj _, .null => isFalse nofun
  | .obj _, .bool _ => isFalse nofun
  | .obj _, .num _ => isFalse nofun
  | .obj _, .str _ => isFalse nofun
  | .obj _, .arr _ => isFalse nofun
  | .obj x, .obj y =>
    match decEqJF x y with
    | isTrue h => isTrue (by rw [h])
    | isFalse h => isFalse (by simp [h])

/-- Decidable equality for lists of `Json`. -/
def decEqJL : (a b : List Json) → Decidable (a = b)
  | [], [] => isTrue rfl
  | [], _ :: _ => isFalse nofun
  | _ :: _, [] => isFalse nofun
  | x :: xs, y :: ys =>
    match decEqJ x y, decEqJL xs ys with
    | isTrue h1, isTrue h2 => isTrue (by rw [h1, h2])
    | isFalse h1, _ => isFalse (by simp [h1])
    | _, isFalse h2 => isFalse (by simp [h2])

/-- Decidable equality for field lists of `Json` objects. -/
def decEqJF : (a b : List (String × Json)) → Decidable (a = b)
  | [], [] => isTrue rfl
  | [], _ :: _ => isFalse nofun
  | _ :: _, [] => isFalse nofun
  | (k, v) :: xs, (k', v') :: ys =>
    match decEq k k', decEqJ v v', decEqJF xs ys with
    | isTrue h0, isTrue h1, isTrue h2 => isTrue (by rw [h0, h1, h2])
    | isFalse h0, _, _ => isFalse (by simp [h0])
    | _, isFalse h1, _ => isFalse (by simp [h1])
    | _, _, isFalse h2 => isFalse (by simp [h2])
end

instance : DecidableEq Json := decEqJ

/-- Python truthiness of a parsed-JSON value. -/
def pyTruthy : Json → Bool
  | .null => false
  | .bool b => b
  | .num n => n != 0
  | .str s => s != ""
  | .arr l => !l.isEmpty
  | .obj l => !l.isEmpty

/-- `isinstance(x, int)` on a parsed-JSON value (`bool` is a subclass of `int`). -/
def pyIsInt : Json → Bool
  | .num _ => true
  | .bool _ => true
  | _ => false

/-- Integer value of a Python int (booleans coerce to 0/1). -/
def pyToInt : Json → Int
  | .num n => n
  | .bool b => if b then 1 else 0
  | _ => 0

/-- Numeric view used by Python `==` (ints and bools compare by value). -/
def pyNumVal : Json → Option Int
  | .num n => some n
  | .bool b => some (if b then 1 else 0)
  | _ => none

mutual
/-- Python `==` between parsed-JSON values. -/
def pyEq : Json → Json → Bool
  | .null, .null => true
  | .str a, .str b => a == b
  | .arr a, .arr b => pyEqList a b
  | .obj a, .obj b => pyEqFields a b
  | a, b =>
    match pyNumVal a, pyNumVal b with
    | some x, some y => x == y
    | _, _ => false

def pyEqList : List Json → List Json → Bool
  | [], [] => true
  | a :: as, b :: bs => pyEq a b && pyEqList as bs
  | _, _ => false

def pyEqFields : List (String × Json) → List (String × Json) → Bool
  | [], [] => true
  | (k, v) :: as, (k', v') :: bs => k == k' && pyEq v v' && pyEqFields as bs
  | _, _ => false
end

/-- Is this value a JSON object (`isinstance(x, dict)`)? -/
def isObj : Json → Bool
  | .obj _ => true
  | _ => false

/-- Is this value a JSON array (`isinstance(x, list)`)? -/
def isArr : Json → Bool
  | .arr _ => true
  | _ => false

/-- Is this value a string (`isinstance(x, str)`)? -/
def isStr : Json → Bool
  | .str _ => true
  | _ => false

/-- An unhashable Python value (list or dict): using it as a dict key raises. -/
def unhashable : Json → Bool
  | .arr _ => true
  | .obj _ => true
  | _ => false

/-- `key in obj` for a parsed JSON object. -/
def hasKey : Json → String → Bool
  | .obj fs, k => (fs.lookup k).isSome
  | _, _ => false

/-- `obj.get(key)`: Python's `None` is collapsed with JSON `null`, which is
faithful because the code only inspects the result through truthiness,
`isinstance`, and `==`. -/
def get : Json → String → Json
  | .obj fs, k => (fs.lookup k).getD .null
  | _, _ => .null

/-- `obj.get(key, default)`. -/
def getD (v : Json) (k : String) (d : Json) : Json :=
  match v with
  | .obj fs => (fs.lookup k).getD d
  | _ => d

end Json

/-- Exceptions the validator code can raise. -/
inductive PyErr where
  | typeError : PyErr
  | attributeError : PyErr
deriving Repr, DecidableEq

/-- Python `str.upper()` (character-wise, so that concrete runs reduce in
the kernel). -/
def pyUpper (s : String) : String :=
  ⟨s.data.map Char.toUpper⟩

/-- Python `str.lower()` (character-wise). -/
def pyLower (s : String) : String :=
  ⟨s.data.map Char.toLower⟩

/-- Python `str.strip()`: drop whitespace from both ends. -/
def pyStrip (s : String) : String :=
  ⟨((s.data.dropWhile Char.isWhitespace).reverse.dropWhile
      Char.isWhitespace).reverse⟩

/-- `(value or "").upper()`: empty string for a falsy value, uppercase for a
truthy string, `AttributeError` for a truthy non-string. -/
def pyUpperOrEmpty (v : Json) : Except PyErr String :=
  if v.pyTruthy then
    match v with
    | .str s => .ok (pyUpper s)
    | _ => .error .attributeError
  else .ok ""

/-- The fixed German/English synonym table of `norm_type`. -/
def normTypeTable : List (String × String) :=
  [("hero", "hero"), ("held", "hero"),
   ("companion", "companion"), ("begleiter", "companion"),
   ("character", "character"), ("charakter", "character"),
   ("spell", "spell"), ("zauber", "spell"),
   ("permanent", "permanent"), ("permanent/landmark", "permanent"),
   ("landmark", "permanent"),
   ("token", "token"), ("spielstein", "token")]

/-- `norm_type` on an already-string value: strip, lower-case, map through the
synonym table (unrecognized values pass through). -/
def normTypeStr (s : String) : String :=
  let v := pyLower (pyStrip s)
  (normTypeTable.lookup v).getD v

/-- `norm_type(value)`: `(value or "").strip().lower()` then the synonym
table; raises `AttributeError` when the value is truthy but not a string. -/
def normType (v : Json) : Except PyErr String :=
  if v.pyTruthy then
    match v with
    | .str s => .ok (normTypeStr s)
    | _ => .error .attributeError
  else .ok ""

/-- `rarity_flags(card_obj)`: `(is_rare, is_unique)` from the `rarity` and
`unique` fields; raises if `rarity` is truthy but not a string. -/
def rarityFlags (cardObj : Json) : Except PyErr (Bool × Bool) :=
  match pyUpperOrEmpty (cardObj.get "rarity") with
  | .error e => .error e
  | .ok r =>
    .ok (r = "R", (cardObj.get "unique").pyTruthy || r = "U")

/-! ## Severity, messages and findings -/

inductive Level where
  | error : Level
  | warn : Level
deriving Repr, DecidableEq

/-- Structured finding messages; each constructor carries the values the
corresponding Python f-string interpolates. -/
inductive Msg where
  | jsonLoadFailed : Msg
  -- validate_card_file
  | cardNotObject (i : Nat) : Msg
  | cardMissingField (i : Nat) (f : String) : Msg
  | idPatternMismatch (i : Nat) (cid : String) : Msg
  | rarityNotAllowed (i : Nat) (rarity : String) (allowed : List String) : Msg
  | emptyType (i : Nat) : Msg
  -- validate_collection_file
  | collNotObject (i : Nat) : Msg
  | collMissingField (i : Nat) (f : String) : Msg
  | countOutOfRange (i : Nat) (cnt mn mx : Int) : Msg
  | countNotInt (i : Nat) : Msg
  -- validate_deck_file
  | deckNotObject : Msg
  | deckMissingField (f : String) : Msg
  | cardsMustBeList : Msg
  | heroIdMissing : Msg
  | heroNotFound (heroId : Json) : Msg
  | heroNotHero (heroId : Json) (rawType : Json) : Msg
  | deckFactionMismatch (deckFaction heroFaction : String) : Msg
  | entryNotObject (i : Nat) : Msg
  | entryBadFields (i : Nat) : Msg
  | cardNotFound (i : Nat) (cid : Json) : Msg
  | cardFactionMismatch (i : Nat) (name : Json) (cf heroFaction : String) : Msg
  | cardIsToken (i : Nat) (name : Json) : Msg
  | deckSize (total mn mx : Int) : Msg
  | tooManyCopies (name : Json) (cnt mx : Int) : Msg
  | tooManyRare (cnt mx : Int) : Msg
  | tooManyUnique (cnt mx : Int) : Msg
  | heroCopies (found : Int) : Msg
deriving Repr, DecidableEq

structure Finding where
  level : Level
  msg : Msg
deriving Repr, DecidableEq

/-- Shorthand for an ERROR finding. -/
def errF (m : Msg) : Finding := ⟨.error, m⟩

/-- Shorthand for a WARN finding. -/
def warnF (m : Msg) : Finding := ⟨.warn, m⟩

/-- `isinstance(data, dict) and "__load_error__" in data`. -/
def loadFailed (data : Json) : Bool :=
  data.isObj && data.hasKey "__load_error__"

/-! ## The Card Index

`ctx.card_index` is a Python dict from card id to card object.  Keys are
compared with Python `==` (`pyEq`); insertion appends at the end; assignment
to an existing key replaces the value in place. -/

abbrev Index := List (Json × Json)

/-- Dict lookup by Python equality (the first binding whose key compares
equal). -/
def idxFind (idx : Index) (k : Json) : Option Json :=
  (idx.find? (fun p => p.1.pyEq k)).map (·.2)

/-- Dict assignment `d[k] = v`: replace the value of the first key comparing
equal, else append a new binding. -/
def idxSet (idx : Index) (k v : Json) : Index :=
  match idx with
  | [] => [(k, v)]
  | p :: rest =>
    if p.1.pyEq k then (p.1, v) :: rest else p :: idxSet rest k v

/-- `d.setdefault(k, v)`: insert only if no key compares equal. -/
def idxSetdefault (idx : Index) (k v : Json) : Index :=
  if (idxFind idx k).isSome then idx else idx ++ [(k, v)]

/-! ## `_load_card_meta`: Card Index lookup with lazy tree-search fallback

The directory walk `ctx.root.rglob("CARDS/**/*.json")` filtered by
`looks_like_card_file`, with each file parsed by `load_json`, is abstracted
into the list `tree` of parsed card-file documents in traversal order.

The result is `(found-card?, updated index, did-scan-the-tree?)`; the Boolean
records whether the fallback tree search ran.  A `TypeError` is raised when
the requested id is unhashable (Python cannot test `card_id in ctx.card_index`
for a list or dict). -/

/-- Search one parsed card file for a matching `id` (single object or array
of objects). -/
def fileFindCard (cardId : Json) (data : Json) : Option Json :=
  match data with
  | .obj _ => if (data.get "id").pyEq cardId then some data else none
  | .arr items =>
    items.find? (fun o => o.isObj && (o.get "id").pyEq cardId)
  | _ => none

/-- Search the card-file tree in traversal order for a matching `id`. -/
def treeFindCard (cardId : Json) : List Json → Option Json
  | [] => none
  | d :: rest =>
    match fileFindCard cardId d with
    | some m => some m
    | none => treeFindCard cardId rest

/-- `_load_card_meta(ctx, card_id)`. -/
def loadCardMeta (tree : List Json) (idx : Index) (cardId : Json) :
    Except PyErr (Option Json × Index × Bool) :=
  if cardId.unhashable then .error .typeError
  else
    match idxFind idx cardId with
    | some v => .ok (some v, idx, false)
    | none =>
      match treeFindCard cardId tree with
      | some m => .ok (some m, idxSet idx cardId m, true)
      | none => .ok (none, idx, true)

/-! ## Identifier patterns

The card validator's `id_pattern` comes from the schema and is used through
`re.match`.  Patterns are modelled by a regular-expression AST whose matching
semantics is given by Brzozowski derivatives; `matchFull` is Python's
`re.fullmatch` (the whole string matches) and `reMatch` is Python's
`re.match` (some prefix of the string, possibly empty, matches — anchored at
the start only). -/

inductive Regex where
  | emptyset : Regex
  | eps : Regex
  | char : Char → Regex
  | anyChar : Regex
  | alt : Regex → Regex → Regex
  | cat : Regex → Regex → Regex
  | star : Regex → Regex
deriving Repr, DecidableEq

namespace Regex

/-- Does the regular expression accept the empty string? -/
def nullable : Regex → Bool
  | .emptyset => false
  | .eps => true
  | .char _ => false
  | .anyChar => false
  | .alt r s => r.nullable || s.nullable
  | .cat r s => r.nullable && s.nullable
  | .star _ => true

/-- Brzozowski derivative with respect to one character. -/
def deriv : Regex → Char → Regex
  | .emptyset, _ => .emptyset
  | .eps, _ => .emptyset
  | .char c, a => if c = a then .eps else .emptyset
  | .anyChar, _ => .eps
  | .alt r s, a => .alt (r.deriv a) (s.deriv a)
  | .cat r s, a =>
    if r.nullable then .alt (.cat (r.deriv a) s) (s.deriv a)
    else .cat (r.deriv a) s
  | .star r, a => .cat (r.deriv a) (.star r)

/-- Does the regular expression match exactly this character list? -/
def matchChars : Regex → List Char → Bool
  | r, [] => r.nullable
  | r, c :: cs => matchChars (r.deriv c) cs

end Regex

/-- `re.fullmatch(pattern, s)` viewed as a Boolean. -/
def matchFull (r : Regex) (s : String) : Bool :=
  r.matchChars s.toList

/-- Helper for `reMatch`: does the regex match some leading segment of the
character list (the empty one included)? -/
def reMatchChars : Regex → List Char → Bool
  | r, [] => r.nullable
  | r, c :: cs => r.nullable || reMatchChars (r.deriv c) cs

/-- `re.match(pattern, s)` viewed as a Boolean: a match anchored at the
start of `s` but not at its end. -/
def reMatch (r : Regex) (s : String) : Bool :=
  reMatchChars r s.toList

/-! ## `validate_card_file` -/

/-- The `card_file` rule set extracted from the schema:
`required_fields` (default `[]`), `id_pattern` (as a `Regex`),
`allowed_rarities` (default empty). -/
structure CardRule where
  requiredFields : List String
  idPattern : Regex
  allowedRarities : List String
deriving Repr

/-- The required-field check of one `validate_card_file` element. -/
def cardReqFindings (rule : CardRule) (i : Nat) (obj : Json) : List Finding :=
  rule.requiredFields.filterMap fun fn =>
    if obj.hasKey fn then none else some (errF (.cardMissingField i fn))

/-- The `if cid:` block of one `validate_card_file` element: the id-pattern
check (`re.match` raises `TypeError` on a non-string id) and first-seen-wins
indexing via `setdefault`. -/
def cardIdCheck (rule : CardRule) (i : Nat) (obj : Json) (idx : Index) :
    Except PyErr (List Finding × Index) :=
  let cid := obj.get "id"
  if cid.pyTruthy then
    match cid with
    | .str s =>
      .ok ((if !reMatch rule.idPattern s then [warnF (.idPatternMismatch i s)] else []),
           idxSetdefault idx (.str s) obj)
    | _ => .error .typeError
  else .ok ([], idx)

/-- The rarity check of one `validate_card_file` element:
`allowed_rarities and rarity and rarity.upper() not in allowed_rarities`
(`.upper()` raises `AttributeError` on a truthy non-string rarity). -/
def cardRarityCheck (rule : CardRule) (i : Nat) (obj : Json) :
    Except PyErr (List Finding) :=
  if !rule.allowedRarities.isEmpty && (obj.get "rarity").pyTruthy then
    match obj.get "rarity" with
    | .str r =>
      .ok (if !rule.allowedRarities.contains (pyUpper r) then
             [warnF (.rarityNotAllowed i r rule.allowedRarities)] else [])
    | _ => .error .attributeError
  else .ok []

/-- The body of the `for i, obj in enumerate(items)` loop of
`validate_card_file`: findings for one element, the updated Card Index, and
the exception raised inside the element, if any. -/
def validateCardItem (rule : CardRule) (i : Nat) (obj : Json) (idx : Index) :
    List Finding × Index × Option PyErr :=
  if !obj.isObj then ([errF (.cardNotObject i)], idx, none)
  else
    let reqF := cardReqFindings rule i obj
    match cardIdCheck rule i obj idx with
    | .error e => (reqF, idx, some e)
    | .ok (idF, idx') =>
      match cardRarityCheck rule i obj with
      | .error e => (reqF ++ idF, idx', some e)
      | .ok rarF =>
        match normType (obj.getD "type" (.str "")) with
        | .error e => (reqF ++ idF ++ rarF, idx', some e)
        | .ok t =>
          (reqF ++ idF ++ rarF ++ (if t == "" then [warnF (.emptyType i)] else []),
           idx', none)

/-- The element loop of `validate_card_file` (an exception aborts the file,
keeping the findings recorded so far). -/
def validateCardItems (rule : CardRule) :
    Nat → List Json → Index → List Finding × Index × Option PyErr
  | _, [], idx => ([], idx, none)
  | i, v :: vs, idx =>
    let r := validateCardItem rule i v idx
    match r.2.2 with
    | some pe => (r.1, r.2.1, some pe)
    | none =>
      let r2 := validateCardItems rule (i + 1) vs r.2.1
      (r.1 ++ r2.1, r2.2.1, r2.2.2)

/-- `items = data if isinstance(data, list) else [data]`. -/
def docItems (data : Json) : List Json :=
  match data with
  | .arr l => l
  | _ => [data]

/-- `validate_card_file(ctx, path)` on the parsed content `data`. -/
def validateCardFile (rule : CardRule) (data : Json) (idx : Index) :
    List Finding × Index × Option PyErr :=
  if loadFailed data then ([errF .jsonLoadFailed], idx, none)
  else validateCardItems rule 0 (docItems data) idx

/-! ## `validate_collection_file` -/

/-- The `collection_file` rule set: `required_fields`, `count_min`
(default 0), `count_max` (default 99). -/
structure CollectionRule where
  requiredFields : List String
  countMin : Int
  countMax : Int
deriving Repr, DecidableEq

/-- The body of the element loop of `validate_collection_file` (it can raise
no exception). -/
def validateCollectionItem (rule : CollectionRule) (i : Nat) (obj : Json) :
    List Finding :=
  if !obj.isObj then [errF (.collNotObject i)]
  else
    (rule.requiredFields.filterMap fun f =>
      if obj.hasKey f then none else some (errF (.collMissingField i f)))
    ++ (let cnt := obj.get "count"
        if cnt.pyIsInt then
          if cnt.pyToInt < rule.countMin || cnt.pyToInt > rule.countMax then
            [warnF (.countOutOfRange i cnt.pyToInt rule.countMin rule.countMax)]
          else []
        else [errF (.countNotInt i)])

/-- The `for i, obj in enumerate(items)` loop of `validate_collection_file`. -/
def validateCollectionItems (rule : CollectionRule) : Nat → List Json → List Finding
  | _, [] => []
  | i, v :: vs =>
    validateCollectionItem rule i v ++ validateCollectionItems rule (i + 1) vs

/-- `validate_collection_file(ctx, path)` on the parsed content `data`. -/
def validateCollectionFile (rule : CollectionRule) (data : Json) : List Finding :=
  if loadFailed data then [errF .jsonLoadFailed]
  else validateCollectionItems rule 0 (docItems data)

/-! ## `validate_deck_file` -/

/-- The `deck_file` rule set: `required_fields` plus the `constraints`
sub-record with its code defaults (`min_cards` 40, `max_cards` 60,
`unique_hero` true, `max_same_card` 3, `max_rare_cards` 15,
`max_unique_cards` 3, `same_faction_as_hero` true). -/
structure DeckRule where
  requiredFields : List String
  minCards : Int
  maxCards : Int
  uniqueHero : Bool
  maxSame : Int
  maxRare : Int
  maxUnique : Int
  sameFactionAsHero : Bool
deriving Repr, DecidableEq

/-- `meta.get("name") or meta.get("title") or cid`. -/
def pyNameOf (meta cid : Json) : Json :=
  let n := meta.get "name"
  if n.pyTruthy then n
  else
    let t := meta.get "title"
    if t.pyTruthy then t else cid

/-- `name_counts[name] = name_counts.get(name, 0) + qty`: the first key
comparing Python-equal keeps its position and object identity. -/
def bumpName (ns : List (Json × Int)) (k : Json) (q : Int) : List (Json × Int) :=
  match ns with
  | [] => [(k, q)]
  | (k', c) :: rest =>
    if k'.pyEq k then (k', c + q) :: rest else (k', c) :: bumpName rest k q

/-- State of the `for i, entry in enumerate(cards)` loop of
`validate_deck_file`: the running counters, the shared Card Index, the
findings recorded so far (the pre-loop ones included), a ghost log of the
card ids passed to `_load_card_meta`, and the pending exception, if any. -/
structure LoopSt where
  total : Int
  names : List (Json × Int)
  rare : Int
  uniq : Int
  heroSeen : Int
  idx : Index
  findings : List Finding
  lookups : List Json
  err : Option PyErr
deriving Repr

/-- The per-card same-faction-as-hero check:
`if same_faction_as_hero and hero_faction:` guard, then
`(meta.get("faction") or "").upper()` (which can raise) and the
faction-mismatch ERROR. -/
def deckFactionCheck (sfh : Bool) (heroFaction : String) (i : Nat)
    (name meta : Json) : Except PyErr (List Finding) :=
  if sfh && heroFaction != "" then
    match pyUpperOrEmpty (meta.get "faction") with
    | .error pe => .error pe
    | .ok cf =>
      .ok (if cf != "" && cf != heroFaction then
            [errF (.cardFactionMismatch i name cf heroFaction)]
          else [])
  else .ok []

/-- The body of the per-card loop of `validate_deck_file`. -/
def entryStep (tree : List Json) (sfh : Bool) (heroId : Json)
    (heroFaction : String) (i : Nat) (e : Json) (st : LoopSt) : LoopSt :=
  if !e.isObj then {st with findings := st.findings ++ [errF (.entryNotObject i)]}
  else
    let cid := e.get "card_id"
    let qty := e.get "qty"
    if !cid.pyTruthy || !qty.pyIsInt then
      {st with findings := st.findings ++ [errF (.entryBadFields i)]}
    else
      let q := qty.pyToInt
      let st1 := {st with total := st.total + q, lookups := st.lookups ++ [cid]}
      match loadCardMeta tree st1.idx cid with
      | .error pe => {st1 with err := some pe}
      | .ok (none, idx', _) =>
        {st1 with idx := idx',
                  findings := st1.findings ++ [errF (.cardNotFound i cid)]}
      | .ok (some meta, idx', _) =>
        let st2 := {st1 with idx := idx'}
        let name := pyNameOf meta cid
        -- `name_counts[name]` raises TypeError on an unhashable name.
        if name.unhashable then {st2 with err := some .typeError}
        else
          let st3 := {st2 with names := bumpName st2.names name q}
          match rarityFlags meta with
          | .error pe => {st3 with err := some pe}
          | .ok fl =>
            let st4 := {st3 with
              rare := st3.rare + (if fl.1 then q else 0),
              uniq := st3.uniq + (if fl.2 then q else 0)}
            let st5 := {st4 with
              heroSeen := st4.heroSeen +
                (if heroId.pyTruthy && cid.pyEq heroId then q else 0)}
            match deckFactionCheck sfh heroFaction i name meta with
            | .error pe => {st5 with err := some pe}
            | .ok ffs =>
              let st6 := {st5 with findings := st5.findings ++ ffs}
              match normType (meta.getD "type" (.str "")) with
              | .error pe => {st6 with err := some pe}
              | .ok t =>
                if t == "token" then
                  {st6 with findings := st6.findings ++ [errF (.cardIsToken i name)]}
                else st6

/-- The per-card loop itself; a raised exception aborts the remaining
entries. -/
def deckLoop (tree : List Json) (sfh : Bool) (heroId : Json)
    (heroFaction : String) : Nat → List Json → LoopSt → LoopSt
  | _, [], st => st
  | i, e :: es, st =>
    if st.err.isSome then st
    else deckLoop tree sfh heroId heroFaction (i + 1) es
      (entryStep tree sfh heroId heroFaction i e st)

/-- The aggregate checks run after the per-card loop (deck size, per-name
copy limit, rare/unique caps, hero-copy count). -/
def deckAggregates (cfg : DeckRule) (st : LoopSt) : List Finding :=
  (if st.total < cfg.minCards || st.total > cfg.maxCards then
    [errF (.deckSize st.total cfg.minCards cfg.maxCards)] else [])
  ++ st.names.filterMap (fun p =>
      if p.2 > cfg.maxSame then some (errF (.tooManyCopies p.1 p.2 cfg.maxSame))
      else none)
  ++ (if st.rare > cfg.maxRare then [errF (.tooManyRare st.rare cfg.maxRare)] else [])
  ++ (if st.uniq > cfg.maxUnique then [errF (.tooManyUnique st.uniq cfg.maxUnique)] else [])
  ++ (if cfg.uniqueHero && st.heroSeen != 1 then [errF (.heroCopies st.heroSeen)] else [])

/-- The hero-resolution block of `validate_deck_file`: findings, the hero
faction (`""` when unknown), the updated index, the ghost lookup log, and a
possible exception. -/
def heroPhase (tree : List Json) (idx : Index) (heroId : Json)
    (deckFaction : String) :
    List Finding × String × Index × List Json × Option PyErr :=
  if !heroId.pyTruthy then ([errF .heroIdMissing], "", idx, [], none)
  else
    match loadCardMeta tree idx heroId with
    | .error e => ([], "", idx, [heroId], some e)
    | .ok (none, idx', _) => ([errF (.heroNotFound heroId)], "", idx', [heroId], none)
    | .ok (some meta, idx', _) =>
      match normType (meta.getD "type" (.str "")) with
      | .error e => ([], "", idx', [heroId], some e)
      | .ok t =>
        let f1 := if t != "hero" then [errF (.heroNotHero heroId (meta.get "type"))] else []
        match pyUpperOrEmpty (meta.get "faction") with
        | .error e => (f1, "", idx', [heroId], some e)
        | .ok hf =>
          let f2 := if deckFaction != "" && hf != "" && deckFaction != hf then
              [errF (.deckFactionMismatch deckFaction hf)] else []
          (f1 ++ f2, hf, idx', [heroId], none)

/-- `cards = data.get("cards") or []`. -/
def deckCards (data : Json) : Json :=
  let c := data.get "cards"
  if c.pyTruthy then c else .arr []

/-- Result of validating one deck file: the findings recorded (those from
before an exception included), the updated Card Index, the ghost log of the
ids passed to `_load_card_meta`, and the exception, if one was raised. -/
structure DeckResult where
  findings : List Finding
  index : Index
  lookups : List Json
  err : Option PyErr
deriving Repr

/-- The required-field check of `validate_deck_file`. -/
def deckReqFindings (cfg : DeckRule) (data : Json) : List Finding :=
  cfg.requiredFields.filterMap fun f =>
    if data.hasKey f then none else some (errF (.deckMissingField f))

/-- `validate_deck_file(ctx, path)` on the parsed content `data`.  The local
`deck_name` of the code is extracted but never used afterwards, so it is not
modelled. -/
def validateDeckFile (cfg : DeckRule) (tree : List Json) (idx : Index)
    (data : Json) : DeckResult :=
  if loadFailed data then ⟨[errF .jsonLoadFailed], idx, [], none⟩
  else if !data.isObj then ⟨[errF .deckNotObject], idx, [], none⟩
  else
    let reqF := deckReqFindings cfg data
    let heroId := data.get "hero_id"
    match pyUpperOrEmpty (data.get "faction") with
    | .error e => ⟨reqF, idx, [], some e⟩
    | .ok deckFaction =>
      match deckCards data with
      | .arr l =>
        match heroPhase tree idx heroId deckFaction with
        | (hF, _, idx1, lk1, some e) => ⟨reqF ++ hF, idx1, lk1, some e⟩
        | (hF, heroFaction, idx1, lk1, none) =>
          let st0 : LoopSt :=
            ⟨0, [], 0, 0, 0, idx1, reqF ++ hF, lk1, none⟩
          let st := deckLoop tree cfg.sameFactionAsHero heroId heroFaction 0 l st0
          match st.err with
          | some e => ⟨st.findings, st.idx, st.lookups, some e⟩
          | none => ⟨st.findings ++ deckAggregates cfg st, st.idx, st.lookups, none⟩
      | _ => ⟨reqF ++ [errF .cardsMustBeList], idx, [], none⟩

/-- Decidable equality for `Except` results, so that concrete runs of the
embedded functions can be checked by `decide`. -/
instance decEqExcept {ε α : Type} [DecidableEq ε] [DecidableEq α] :
    DecidableEq (Except ε α)
  | .ok a, .ok b =>
    if h : a = b then isTrue (by rw [h]) else isFalse (by simp [h])
  | .ok _, .error _ => isFalse nofun
  | .error _, .ok _ => isFalse nofun
  | .error a, .error b =>
    if h : a = b then isTrue (by rw [h]) else isFalse (by simp [h])

/-! ## Concrete example data used by witnesses and counterexamples -/

/-- A hero card, as in the spec's concrete scenario A. -/
def exHeroCard : Json :=
  .obj [("id", .str "C1"), ("type", .str "Hero"), ("faction", .str "AX")]

/-- A token card, as in the spec's concrete scenario C. -/
def exTokenCard : Json :=
  .obj [("id", .str "C2"), ("type", .str "token"), ("faction", .str "AX"),
        ("name", .str "Shard")]

/-- An ordinary filler card. -/
def exFillerCard : Json :=
  .obj [("id", .str "C3"), ("type", .str "Spell"), ("faction", .str "AX"),
        ("name", .str "Filler")]

/-- A one-file card tree holding the three example cards. -/
def exTree : List Json := [.arr [exHeroCard, exTokenCard, exFillerCard]]

/-- The deck constraints with their code defaults. -/
def exDeckRule : DeckRule := ⟨[], 40, 60, true, 3, 15, 3, true⟩

/-- A card rule with no required fields, the match-anything pattern and no
rarity restriction. -/
def exCardRule : CardRule := ⟨[], .star .anyChar, []⟩

/-- The element index carried by a card-file finding message. -/
def cardMsgIdx : Msg → Option Nat
  | .cardNotObject i => some i
  | .cardMissingField i _ => some i
  | .idPatternMismatch i _ => some i
  | .rarityNotAllowed i _ _ => some i
  | .emptyType i => some i
  | _ => none

/-- The element index carried by a collection-file finding message. -/
def collMsgIdx : Msg → Option Nat
  | .collNotObject i => some i
  | .collMissingField i _ => some i
  | .countOutOfRange i _ _ _ => some i
  | .countNotInt i => some i
  | _ => none

/-! ## Deck-loop analysis

Spec-side definitions restating, in the claims' own terms, the quantities the
deck loop accumulates: an entry is well-shaped when it is an object with a
truthy `card_id` and a Python-integer `qty`; the claimed deck total sums the
`qty` of exactly the well-shaped entries; the claimed hero-seen count sums
the `qty` of the well-shaped entries that resolve and whose `card_id` equals
the deck's hero id, threading the Card Index exactly as resolution does. -/

/-- A deck card entry that is an object with a truthy `card_id` and an
integer `qty`. -/
def wellShaped (e : Json) : Bool :=
  e.isObj && (e.get "card_id").pyTruthy && (e.get "qty").pyIsInt

/-- The claim's deck total: the sum of `qty` over the well-shaped entries
(resolution plays no role). -/
def totalQtySpec : List Json → Int
  | [] => 0
  | e :: es => (if wellShaped e then (e.get "qty").pyToInt else 0) + totalQtySpec es

/-- One step of the Card Index replay: a well-shaped entry's `card_id` is
resolved, lazily extending the index. -/
def replayIdxStep (tree : List Json) (e : Json) (idx : Index) : Index :=
  if wellShaped e then
    match loadCardMeta tree idx (e.get "card_id") with
    | .ok r => r.2.1
    | .error _ => idx
  else idx

/-- Replay of the Card Index through the per-card loop. -/
def replayIdx (tree : List Json) : List Json → Index → Index
  | [], idx => idx
  | e :: es, idx => replayIdx tree es (replayIdxStep tree e idx)

/-- One entry's contribution to the claim's hero-seen count: its `qty` when
it is well-shaped, resolves to a card, and its `card_id` equals the hero
id. -/
def heroSeenStep (tree : List Json) (heroId e : Json) (idx : Index) : Int :=
  if wellShaped e then
    match loadCardMeta tree idx (e.get "card_id") with
    | .ok (some _, _, _) =>
      if (e.get "card_id").pyEq heroId then (e.get "qty").pyToInt else 0
    | _ => 0
  else 0

/-- The claim's hero-seen count: the sum of `qty` over well-shaped entries
that resolve to a card and whose `card_id` equals the hero id, threading the
Card Index exactly as resolution does. -/
def heroSeenSpec (tree : List Json) (heroId : Json) : List Json → Index → Int
  | [], _ => 0
  | e :: es, idx =>
    heroSeenStep tree heroId e idx +
      heroSeenSpec tree heroId es (replayIdxStep tree e idx)

/-- The Card Index state after the hero-resolution block. -/
def heroIdxAfter (tree : List Json) (idx : Index) (heroId : Json) : Index :=
  if heroId.pyTruthy then
    match loadCardMeta tree idx heroId with
    | .ok r => r.2.1
    | .error _ => idx
  else idx

/-- The message shapes the per-card loop body can emit, all carrying the
entry's position `i`. -/
def deckLoopMsg (i : Nat) (f : Finding) : Prop :=
  f = errF (.entryNotObject i) ∨ f = errF (.entryBadFields i) ∨
  (∃ c, f = errF (.cardNotFound i c)) ∨
  (∃ n a b, f = errF (.cardFactionMismatch i n a b)) ∨
  (∃ n, f = errF (.cardIsToken i n))

/-- The card entries of a deck that is five cards short (the spec's concrete
scenario B). -/
def exCardsB : List Json :=
  [.obj [("card_id", .str "C1"), ("qty", .num 1)],
   .obj [("card_id", .str "C3"), ("qty", .num 34)]]

/-- The scenario-B deck itself. -/
def exDeckB : Json :=
  .obj [("hero_id", .str "C1"), ("faction", .str "AX"),
        ("cards", .arr exCardsB)]

/-- The card entries of a deck listing its hero twice. -/
def exCardsH2 : List Json :=
  [.obj [("card_id", .str "C1"), ("qty", .num 2)],
   .obj [("card_id", .str "C3"), ("qty", .num 38)]]

/-- A deck listing its hero twice. -/
def exDeckH2 : Json :=
  .obj [("hero_id", .str "C1"), ("faction", .str "AX"),
        ("cards", .arr exCardsH2)]

/-- A deck whose second entry is the token card `C2` (scenario C). -/
def exCardsC : List Json :=
  [.obj [("card_id", .str "C1"), ("qty", .num 1)],
   .obj [("card_id", .str "C2"), ("qty", .num 1)],
   .obj [("card_id", .str "C3"), ("qty", .num 38)]]

/-- The scenario-C deck itself. -/
def exDeckC : Json :=
  .obj [("hero_id", .str "C1"), ("faction", .str "AX"),
        ("cards", .arr exCardsC)]

/-- A deck whose `hero_id` field is present but empty. -/
def exDeckNoHero : Json :=
  .obj [("hero_id", .str ""), ("cards", .arr [])]

/-! ## Basic lemmas about the Python-semantics helpers -/

@[simp] theorem errF_msg (m : Msg) : (errF m).msg = m := rfl

@[simp] theorem warnF_msg (m : Msg) : (warnF m).msg = m := rfl

@[simp] theorem errF_inj {m1 m2 : Msg} : errF m1 = errF m2 ↔ m1 = m2 := by
  simp [errF]

@[simp] theorem warnF_inj {m1 m2 : Msg} : warnF m1 = warnF m2 ↔ m1 = m2 := by
  simp [warnF]

@[simp] theorem warnF_ne_errF (m1 m2 : Msg) : warnF m1 ≠ errF m2 := by
  simp [warnF, errF]

@[simp] theorem errF_ne_warnF (m1 m2 : Msg) : errF m1 ≠ warnF m2 := by
  simp [errF, warnF]

mutual
theorem pyEq_refl : (a : Json) → Json.pyEq a a = true
  | .null => rfl
  | .bool b => by cases b <;> rfl
  | .num n => by simp [Json.pyEq, Json.pyNumVal]
  | .str s => by simp [Json.pyEq]
  | .arr l => by simpa [Json.pyEq] using pyEqList_refl l
  | .obj l => by simpa [Json.pyEq] using pyEqFields_refl l

theorem pyEqList_refl : (l : List Json) → Json.pyEqList l l = true
  | [] => rfl
  | a :: as => by
    simp only [Json.pyEqList, Bool.and_eq_true]
    exact ⟨pyEq_refl a, pyEqList_refl as⟩

theorem pyEqFields_refl : (l : List (String × Json)) → Json.pyEqFields l l = true
  | [] => rfl
  | (k, v) :: rest => by
    simp only [Json.pyEqFields, Bool.and_eq_true]
    exact ⟨⟨by simp, pyEq_refl v⟩, pyEqFields_refl rest⟩
end

/-- Python-equal values have the same truthiness. -/
theorem pyEq_truthy {a b : Json} (h : Json.pyEq a b = true) :
    a.pyTruthy = b.pyTruthy := by
  cases a <;> cases b
  case bool.bool x y =>
    cases x <;> cases y <;> simp_all [Json.pyEq, Json.pyNumVal, Json.pyTruthy]
  case bool.num x n =>
    cases x <;> simp_all [Json.pyEq, Json.pyNumVal, Json.pyTruthy]
    omega
  case num.bool n x =>
    cases x <;> simp_all [Json.pyEq, Json.pyNumVal, Json.pyTruthy]
  case arr.arr l₁ l₂ =>
    cases l₁ <;> cases l₂ <;> simp_all [Json.pyEq, Json.pyEqList, Json.pyTruthy]
  case obj.obj l₁ l₂ =>
    cases l₁ <;> cases l₂ <;> simp_all [Json.pyEq, Json.pyEqFields, Json.pyTruthy]
  all_goals simp_all [Json.pyEq, Json.pyNumVal, Json.pyTruthy]

/-! ## Lemmas about the Card Index -/

theorem idxFind_append_of_some {idx : Index} {k v : Json} (ext : Index)
    (h : idxFind idx k = some v) : idxFind (idx ++ ext) k = some v := by
  unfold idxFind at h ⊢
  rw [List.find?_append]
  cases hf : List.find? (fun p => p.1.pyEq k) idx with
  | none => simp [hf] at h
  | some q => rw [hf] at h; simpa using h

theorem idxSetdefault_append (idx : Index) (k v : Json) :
    ∃ ext, idxSetdefault idx k v = idx ++ ext := by
  unfold idxSetdefault
  by_cases h : (idxFind idx k).isSome
  · exact ⟨[], by simp [h]⟩
  · exact ⟨[(k, v)], by simp [h]⟩

theorem idxSet_of_find_none {idx : Index} {k : Json}
    (h : idxFind idx k = none) (v : Json) : idxSet idx k v = idx ++ [(k, v)] := by
  induction idx with
  | nil => simp [idxSet]
  | cons p rest ih =>
    simp only [idxFind, List.find?] at h
    by_cases hp : p.1.pyEq k
    · simp [hp] at h
    · simp only [idxSet, hp, Bool.false_eq_true, if_false, List.cons_append,
        List.cons.injEq, true_and]
      exact ih (by simpa [idxFind, hp] using h)

/-- `_load_card_meta` only ever appends to the Card Index. -/
theorem loadCardMeta_append {tree : List Json} {idx : Index} {cid : Json}
    {r : Option Json × Index × Bool} (h : loadCardMeta tree idx cid = .ok r) :
    ∃ ext, r.2.1 = idx ++ ext := by
  unfold loadCardMeta at h
  by_cases hu : cid.unhashable
  · simp [hu] at h
  · simp only [hu, Bool.false_eq_true, if_false] at h
    cases hf : idxFind idx cid with
    | some v =>
      rw [hf] at h
      exact ⟨[], by cases h; simp⟩
    | none =>
      rw [hf] at h
      cases ht : treeFindCard cid tree with
      | some m =>
        rw [ht] at h
        cases h
        exact ⟨[(cid, m)], by simpa using idxSet_of_find_none hf m⟩
      | none =>
        rw [ht] at h
        cases h
        exact ⟨[], by simp⟩

/-- `_load_card_meta` never disturbs an existing binding. -/
theorem loadCardMeta_preserves {tree : List Json} {idx : Index} {cid k v : Json}
    {r : Option Json × Index × Bool} (h : loadCardMeta tree idx cid = .ok r)
    (hk : idxFind idx k = some v) : idxFind r.2.1 k = some v := by
  obtain ⟨ext, hext⟩ := loadCardMeta_append h
  rw [hext]
  exact idxFind_append_of_some ext hk

/-- The appended binding of an id absent from the index is found again. -/
theorem idxFind_append_self {idx : Index} {k : Json}
    (h : idxFind idx k = none) (v : Json) :
    idxFind (idx ++ [(k, v)]) k = some v := by
  unfold idxFind at h ⊢
  rw [List.find?_append]
  cases hf : List.find? (fun p => p.1.pyEq k) idx with
  | some q => simp [hf] at h
  | none => simp [List.find?, pyEq_refl k]

/-- The `if cid:` block only ever appends to the Card Index. -/
theorem cardIdCheck_append {rule : CardRule} {i : Nat} {obj : Json} {idx : Index}
    {p : List Finding × Index} (h : cardIdCheck rule i obj idx = .ok p) :
    ∃ ext, p.2 = idx ++ ext := by
  unfold cardIdCheck at h
  by_cases ht : (obj.get "id").pyTruthy
  · simp only [ht, if_true] at h
    cases hc : obj.get "id" with
    | str s =>
      rw [hc] at h
      cases h
      exact idxSetdefault_append idx (.str s) obj
    | _ => (rw [hc] at h; cases h)
  · simp only [ht, Bool.false_eq_true, if_false] at h
    cases h
    exact ⟨[], by simp⟩

/-- One card element only ever appends to the Card Index. -/
theorem validateCardItem_append (rule : CardRule) (i : Nat) (v : Json)
    (idx : Index) : ∃ ext, (validateCardItem rule i v idx).2.1 = idx ++ ext := by
  unfold validateCardItem
  by_cases h1 : !v.isObj
  · exact ⟨[], by simp [h1]⟩
  · simp only [h1, Bool.false_eq_true, if_false]
    cases hid : cardIdCheck rule i v idx with
    | error e => exact ⟨[], by simp⟩
    | ok p =>
      obtain ⟨ext, hext⟩ := cardIdCheck_append hid
      cases p with
      | mk idF idx' =>
        cases cardRarityCheck rule i v with
        | error e => exact ⟨ext, hext⟩
        | ok rarF =>
          cases normType (v.getD "type" (.str "")) with
          | error e => exact ⟨ext, hext⟩
          | ok t => exact ⟨ext, hext⟩

/-- The card-element loop only ever appends to the Card Index. -/
theorem validateCardItems_append (rule : CardRule) :
    ∀ (vs : List Json) (i : Nat) (idx : Index),
      ∃ ext, (validateCardItems rule i vs idx).2.1 = idx ++ ext
  | [], _, idx => ⟨[], by simp [validateCardItems]⟩
  | v :: vs, i, idx => by
    obtain ⟨ext1, h1⟩ := validateCardItem_append rule i v idx
    unfold validateCardItems
    dsimp only
    cases he : (validateCardItem rule i v idx).2.2 with
    | some pe => exact ⟨ext1, h1⟩
    | none =>
      obtain ⟨ext2, h2⟩ :=
        validateCardItems_append rule vs (i + 1) (validateCardItem rule i v idx).2.1
      refine ⟨ext1 ++ ext2, ?_⟩
      show (validateCardItems rule (i + 1) vs (validateCardItem rule i v idx).2.1).2.1
        = idx ++ (ext1 ++ ext2)
      rw [h2, h1, List.append_assoc]

/-- `validate_card_file` only ever appends to the Card Index. -/
theorem validateCardFile_append (rule : CardRule) (data : Json) (idx : Index) :
    ∃ ext, (validateCardFile rule data idx).2.1 = idx ++ ext := by
  unfold validateCardFile
  by_cases h : loadFailed data
  · exact ⟨[], by simp [h]⟩
  · simpa [h] using validateCardItems_append rule (docItems data) 0 idx

/-! ## Claim C3 — lazy resolution caching -/

/-- **C3 counterexample.**  The claim says a second lookup of an id that
previously missed performs no tree traversal.  In the code a miss is not
cached: looking up `"MISSING"` against the example tree misses and returns the
index unchanged (`[]`), so the second lookup has exactly the same arguments —
and its scan flag is again `true`, not `false` as the claim requires. -/
theorem claim3_counterexample :
    loadCardMeta exTree [] (Json.str "MISSING") = .ok (none, [], true) ∧
    loadCardMeta exTree ([] : Index) (Json.str "MISSING") ≠
      .ok (none, ([] : Index), false) := by
  constructor
  · decide
  · decide

/-- **C3 (amended).**  Lookups of ids already in the Card Index are answered
from the cache; a lookup that finds a card caches it, so the next lookup of
that id performs no tree traversal and returns the same card.  But a lookup
that misses does not cache the miss: it leaves the index unchanged and its
scan flag is `true` — every repeated lookup of a missing id re-scans the
tree. -/
theorem claim3_lookup_caching (tree : List Json) (idx : Index) (cid : Json) :
    (∀ m idx2 s, loadCardMeta tree idx cid = .ok (some m, idx2, s) →
      loadCardMeta tree idx2 cid = .ok (some m, idx2, false)) ∧
    (∀ idx2 s, loadCardMeta tree idx cid = .ok (none, idx2, s) →
      idx2 = idx ∧ s = true) := by
  constructor
  · intro m idx2 s h
    unfold loadCardMeta at h ⊢
    by_cases hu : cid.unhashable
    · simp [hu] at h
    · simp only [hu, Bool.false_eq_true, if_false] at h ⊢
      cases hf : idxFind idx cid with
      | some v =>
        rw [hf] at h
        simp only [Except.ok.injEq, Prod.mk.injEq, Option.some.injEq] at h
        obtain ⟨hm, hidx, hs⟩ := h
        subst hm hidx
        rw [hf]
      | none =>
        rw [hf] at h
        cases ht : treeFindCard cid tree with
        | some m0 =>
          rw [ht] at h
          simp only [Except.ok.injEq, Prod.mk.injEq, Option.some.injEq] at h
          obtain ⟨hm, hidx, hs⟩ := h
          subst hm hidx
          have hfind : idxFind (idxSet idx cid m0) cid = some m0 := by
            rw [idxSet_of_find_none hf m0]
            exact idxFind_append_self hf m0
          rw [hfind]
        | none =>
          rw [ht] at h
          simp at h
  · intro idx2 s h
    unfold loadCardMeta at h
    by_cases hu : cid.unhashable
    · simp [hu] at h
    · simp only [hu, Bool.false_eq_true, if_false] at h
      cases hf : idxFind idx cid with
      | some v => rw [hf] at h; simp at h
      | none =>
        rw [hf] at h
        cases ht : treeFindCard cid tree with
        | some m0 => rw [ht] at h; simp at h
        | none =>
          rw [ht] at h
          simp only [Except.ok.injEq, Prod.mk.injEq] at h
          exact ⟨h.2.1.symm, h.2.2.symm⟩

/-- Witness for C3 (amended) at a concrete input: the first lookup of `"C1"`
scans the tree and caches the hero card; the follow-up lookup is answered
from the cache with no scan. -/
theorem claim3_lookup_caching_witness :
    loadCardMeta exTree [(Json.str "C1", exHeroCard)] (Json.str "C1") =
      .ok (some exHeroCard, [(Json.str "C1", exHeroCard)], false) :=
  (claim3_lookup_caching exTree [] (Json.str "C1")).1 exHeroCard
    [(Json.str "C1", exHeroCard)] true (by decide)

/-! ## Claim C4 — first-seen-wins Card Index -/

/-- **C4.**  Both write paths into the Card Index — the card-file validator's
`setdefault` registration and the deck validator's lazy-resolution fallback —
preserve every existing binding (no overwrite, no removal, even when later
content differs), and only ever append: the index only grows. -/
theorem claim4_first_seen_wins (rule : CardRule) (data : Json)
    (tree : List Json) (idx : Index) (cid k v : Json)
    (h : idxFind idx k = some v) :
    (idxFind (validateCardFile rule data idx).2.1 k = some v ∧
      ∃ ext, (validateCardFile rule data idx).2.1 = idx ++ ext) ∧
    (∀ r, loadCardMeta tree idx cid = .ok r →
      idxFind r.2.1 k = some v ∧ ∃ ext, r.2.1 = idx ++ ext) := by
  constructor
  · obtain ⟨ext, hext⟩ := validateCardFile_append rule data idx
    refine ⟨?_, ext, hext⟩
    rw [hext]
    exact idxFind_append_of_some ext h
  · intro r hr
    obtain ⟨ext, hext⟩ := loadCardMeta_append hr
    refine ⟨?_, ext, hext⟩
    rw [hext]
    exact idxFind_append_of_some ext h

/-- Witness for C4 at a concrete input: a pre-existing binding of `"C9"`
survives validating a card file that redefines nothing, and survives a lazy
lookup of `"C1"`. -/
theorem claim4_first_seen_wins_witness :
    (idxFind (validateCardFile exCardRule (Json.arr [exHeroCard])
        [(Json.str "C9", exFillerCard)]).2.1 (Json.str "C9") = some exFillerCard ∧
      ∃ ext, (validateCardFile exCardRule (Json.arr [exHeroCard])
        [(Json.str "C9", exFillerCard)]).2.1 =
          [(Json.str "C9", exFillerCard)] ++ ext) ∧
    (∀ r, loadCardMeta exTree [(Json.str "C9", exFillerCard)] (Json.str "C1") = .ok r →
      idxFind r.2.1 (Json.str "C9") = some exFillerCard ∧
      ∃ ext, r.2.1 = [(Json.str "C9", exFillerCard)] ++ ext) :=
  claim4_first_seen_wins exCardRule (Json.arr [exHeroCard]) exTree
    [(Json.str "C9", exFillerCard)] (Json.str "C1") (Json.str "C9") exFillerCard
    (by decide)

/-! ## Claim C5 — identifier-pattern matching -/

theorem mem_cardReqFindings {rule : CardRule} {i : Nat} {obj : Json}
    {f : Finding} (h : f ∈ cardReqFindings rule i obj) :
    ∃ fn, f = errF (.cardMissingField i fn) := by
  unfold cardReqFindings at h
  obtain ⟨fn, _, hf⟩ := List.mem_filterMap.1 h
  by_cases hk : obj.hasKey fn
  · simp [hk] at hf
  · simp only [hk, Bool.false_eq_true, if_false, Option.some.injEq] at hf
    exact ⟨fn, hf.symm⟩

theorem cardIdCheck_ok_findings {rule : CardRule} {i : Nat} {obj : Json}
    {idx : Index} {p : List Finding × Index}
    (h : cardIdCheck rule i obj idx = .ok p) :
    p.1 = [] ∨ ∃ s, p.1 = [warnF (.idPatternMismatch i s)] := by
  unfold cardIdCheck at h
  by_cases ht : (obj.get "id").pyTruthy
  · simp only [ht, if_true] at h
    cases hc : obj.get "id" with
    | str s =>
      rw [hc] at h
      cases h
      by_cases hm : reMatch rule.idPattern s
      · exact .inl (by simp [hm])
      · exact .inr ⟨s, by simp [hm]⟩
    | _ => (rw [hc] at h; cases h)
  · simp only [ht, Bool.false_eq_true, if_false] at h
    cases h
    exact .inl rfl

theorem cardRarityCheck_ok_findings {rule : CardRule} {i : Nat} {obj : Json}
    {fs : List Finding} (h : cardRarityCheck rule i obj = .ok fs) :
    fs = [] ∨ ∃ r, fs = [warnF (.rarityNotAllowed i r rule.allowedRarities)] := by
  unfold cardRarityCheck at h
  by_cases hg : !rule.allowedRarities.isEmpty && (obj.get "rarity").pyTruthy
  · simp only [hg, if_true] at h
    cases hc : obj.get "rarity" with
    | str r =>
      rw [hc] at h
      cases h
      cases hm : rule.allowedRarities.contains (pyUpper r) with
      | true => exact .inl rfl
      | false => exact .inr ⟨r, rfl⟩
    | _ => (rw [hc] at h; cases h)
  · simp only [hg, Bool.false_eq_true, if_false] at h
    cases h
    exact .inl rfl

/-- Every finding of one card element carries that element's index. -/
theorem validateCardItem_msgIdx (rule : CardRule) (i : Nat) (v : Json)
    (idx : Index) :
    ∀ f ∈ (validateCardItem rule i v idx).1, cardMsgIdx f.msg = some i := by
  intro f hf
  unfold validateCardItem at hf
  by_cases h1 : !v.isObj
  · simp only [h1, if_true, List.mem_singleton] at hf
    subst hf; rfl
  · simp only [h1, Bool.false_eq_true, if_false] at hf
    cases hid : cardIdCheck rule i v idx with
    | error e =>
      rw [hid] at hf
      obtain ⟨fn, hfn⟩ := mem_cardReqFindings hf
      subst hfn; rfl
    | ok p =>
      rw [hid] at hf
      cases hrar : cardRarityCheck rule i v with
      | error e =>
        rw [hrar] at hf
        rcases List.mem_append.1 hf with hr | hr
        · obtain ⟨fn, hfn⟩ := mem_cardReqFindings hr
          subst hfn; rfl
        · rcases cardIdCheck_ok_findings hid with hp | ⟨s, hp⟩
          · simp [hp] at hr
          · rw [hp] at hr
            simp only [List.mem_singleton] at hr
            subst hr; rfl
      | ok rarF =>
        rw [hrar] at hf
        cases hnt : normType (v.getD "type" (.str "")) with
        | error e =>
          rw [hnt] at hf
          rcases List.mem_append.1 hf with hr | hr
          · rcases List.mem_append.1 hr with hr2 | hr2
            · obtain ⟨fn, hfn⟩ := mem_cardReqFindings hr2
              subst hfn; rfl
            · rcases cardIdCheck_ok_findings hid with hp | ⟨s, hp⟩
              · simp [hp] at hr2
              · rw [hp] at hr2
                simp only [List.mem_singleton] at hr2
                subst hr2; rfl
          · rcases cardRarityCheck_ok_findings hrar with hp | ⟨r, hp⟩
            · simp [hp] at hr
            · rw [hp] at hr
              simp only [List.mem_singleton] at hr
              subst hr; rfl
        | ok t =>
          rw [hnt] at hf
          rcases List.mem_append.1 hf with hr | hr
          · rcases List.mem_append.1 hr with hr2 | hr2
            · rcases List.mem_append.1 hr2 with hr3 | hr3
              · obtain ⟨fn, hfn⟩ := mem_cardReqFindings hr3
                subst hfn; rfl
              · rcases cardIdCheck_ok_findings hid with hp | ⟨s, hp⟩
                · simp [hp] at hr3
                · rw [hp] at hr3
                  simp only [List.mem_singleton] at hr3
                  subst hr3; rfl
            · rcases cardRarityCheck_ok_findings hrar with hp | ⟨r, hp⟩
              · simp [hp] at hr2
              · rw [hp] at hr2
                simp only [List.mem_singleton] at hr2
                subst hr2; rfl
          · by_cases hte : t == ""
            · simp only [hte, if_true, List.mem_singleton] at hr
              subst hr; rfl
            · simp [hte] at hr

/-- Every finding of the card-element loop started at index `j` carries an
element index `≥ j`. -/
theorem validateCardItems_msgIdx (rule : CardRule) :
    ∀ (vs : List Json) (j : Nat) (idx : Index),
      ∀ f ∈ (validateCardItems rule j vs idx).1,
        ∃ k, cardMsgIdx f.msg = some k ∧ j ≤ k
  | [], _, idx => by intro f hf; simp [validateCardItems] at hf
  | v :: vs, j, idx => by
    intro f hf
    unfold validateCardItems at hf
    dsimp only at hf
    cases he : (validateCardItem rule j v idx).2.2 with
    | some pe =>
      rw [he] at hf
      exact ⟨j, validateCardItem_msgIdx rule j v idx f hf, Nat.le_refl j⟩
    | none =>
      rw [he] at hf
      rcases List.mem_append.1 hf with hr | hr
      · exact ⟨j, validateCardItem_msgIdx rule j v idx f hr, Nat.le_refl j⟩
      · obtain ⟨k, hk, hjk⟩ :=
          validateCardItems_msgIdx rule vs (j + 1) (validateCardItem rule j v idx).2.1 f hr
        exact ⟨k, hk, Nat.le_of_succ_le hjk⟩

/-- The id-pattern WARN of one card element whose id is the non-empty string
`s` appears exactly when `re.match` fails on `s`. -/
theorem validateCardItem_idwarn {rule : CardRule} {j : Nat} {v : Json}
    {idx : Index} {s : String}
    (herr : (validateCardItem rule j v idx).2.2 = none)
    (hid : v.get "id" = Json.str s) (hs : s ≠ "") :
    (warnF (.idPatternMismatch j s) ∈ (validateCardItem rule j v idx).1 ↔
      reMatch rule.idPattern s = false) := by
  have hobj : v.isObj = true := by
    cases v <;> simp_all [Json.get, Json.isObj]
  have hidchk : cardIdCheck rule j v idx =
      .ok ((if !reMatch rule.idPattern s then [warnF (.idPatternMismatch j s)] else []),
           idxSetdefault idx (.str s) v) := by
    unfold cardIdCheck
    rw [hid]
    simp [Json.pyTruthy, hs]
  unfold validateCardItem at herr ⊢
  simp only [hobj, Bool.not_true, Bool.false_eq_true, if_false] at herr ⊢
  rw [hidchk] at herr ⊢
  dsimp only at herr ⊢
  cases hrar : cardRarityCheck rule j v with
  | error e => rw [hrar] at herr; exact Option.noConfusion herr
  | ok rarF =>
    rw [hrar] at herr
    dsimp only at herr ⊢
    cases hnt : normType (v.getD "type" (.str "")) with
    | error e => rw [hnt] at herr; exact Option.noConfusion herr
    | ok t =>
      dsimp only
      constructor
      · intro hf
        rcases List.mem_append.1 hf with hr | hr
        · rcases List.mem_append.1 hr with hr2 | hr2
          · rcases List.mem_append.1 hr2 with hr3 | hr3
            · obtain ⟨fn, hfn⟩ := mem_cardReqFindings hr3
              cases hfn
            · by_cases hm : reMatch rule.idPattern s
              · simp [hm] at hr3
              · simpa using hm
          · rcases cardRarityCheck_ok_findings hrar with hp | ⟨r, hp⟩
            · simp [hp] at hr2
            · rw [hp] at hr2
              simp at hr2
        · by_cases hte : t == ""
          · simp only [hte, if_true, List.mem_singleton] at hr
            cases hr
          · simp [hte] at hr
      · intro hm
        apply List.mem_append.2
        refine .inl (List.mem_append.2 (.inl (List.mem_append.2 (.inr ?_))))
        simp [hm]

/-- The id-pattern WARN for list position `i` (element index `j + i`)
appears in the card-element loop's findings exactly when `re.match` fails,
provided the loop raised no exception. -/
theorem validateCardItems_idwarn (rule : CardRule) :
    ∀ (vs : List Json) (j : Nat) (idx : Index) (i : Nat) (e : Json) (s : String),
      (validateCardItems rule j vs idx).2.2 = none →
      vs.get? i = some e →
      e.get "id" = Json.str s → s ≠ "" →
      (warnF (.idPatternMismatch (j + i) s) ∈ (validateCardItems rule j vs idx).1 ↔
        reMatch rule.idPattern s = false)
  | [], _, _, i, e, s => by intro _ hi; simp at hi
  | v :: vs, j, idx, i, e, s => by
    intro herr hi hid hs
    unfold validateCardItems at herr ⊢
    dsimp only at herr ⊢
    cases he : (validateCardItem rule j v idx).2.2 with
    | some pe => rw [he] at herr; exact Option.noConfusion herr
    | none =>
      rw [he] at herr
      dsimp only at herr ⊢
      cases i with
      | zero =>
        simp only [List.get?_cons_zero, Option.some.injEq] at hi
        subst hi
        rw [List.mem_append]
        constructor
        · intro hf
          rcases hf with hr | hr
          · exact (validateCardItem_idwarn he hid hs).1 hr
          · obtain ⟨k, hk, hjk⟩ := validateCardItems_msgIdx rule vs (j + 1)
              (validateCardItem rule j v idx).2.1 _ hr
            simp only [warnF_msg, cardMsgIdx, Option.some.injEq, Nat.add_zero] at hk
            omega
        · intro hm
          exact .inl ((validateCardItem_idwarn he hid hs).2 hm)
      | succ i' =>
        simp only [List.get?_cons_succ] at hi
        have hrw : j + (i' + 1) = (j + 1) + i' := by omega
        rw [hrw, List.mem_append]
        constructor
        · intro hf
          rcases hf with hr | hr
          · have := validateCardItem_msgIdx rule j v idx _ hr
            simp only [warnF_msg, cardMsgIdx, Option.some.injEq] at this
            omega
          · exact (validateCardItems_idwarn rule vs (j + 1)
              (validateCardItem rule j v idx).2.1 i' e s herr hi hid hs).1 hr
        · intro hm
          exact .inr ((validateCardItems_idwarn rule vs (j + 1)
            (validateCardItem rule j v idx).2.1 i' e s herr hi hid hs).2 hm)

/-- **C5 counterexample.**  With the pattern `A+` and the id `"AB"`, the
whole identifier does not match the pattern (so the claim demands a WARN),
but the proper prefix `"A"` does; the code uses `re.match`, accepts the
prefix, and emits no id-pattern WARN — the only finding of this file is the
unrelated empty-type WARN. -/
theorem claim5_counterexample :
    matchFull (Regex.cat (.char 'A') (.star (.char 'A'))) "AB" = false ∧
    (validateCardFile ⟨[], Regex.cat (.char 'A') (.star (.char 'A')), []⟩
        (Json.obj [("id", Json.str "AB")]) []).1 = [warnF (.emptyType 0)] := by
  constructor
  · decide
  · decide

/-- **C5 (amended).**  For every card-file element that is an object with a
non-empty string id, the validator emits the id-pattern WARN exactly when the
id fails to match the configured pattern under Python `re.match` semantics —
a match of a proper prefix anchored at the start suffices, so no WARN is
emitted for an id whose prefix matches even though the whole identifier does
not (full-match semantics is what the original claim asserted). -/
theorem claim5_id_pattern (rule : CardRule) (data : Json) (idx : Index)
    (i : Nat) (e : Json) (s : String)
    (hload : loadFailed data = false)
    (herr : (validateCardFile rule data idx).2.2 = none)
    (hi : (docItems data).get? i = some e)
    (hid : e.get "id" = Json.str s) (hs : s ≠ "") :
    (warnF (.idPatternMismatch i s) ∈ (validateCardFile rule data idx).1 ↔
      reMatch rule.idPattern s = false) := by
  unfold validateCardFile at herr ⊢
  simp only [hload, Bool.false_eq_true, if_false] at herr ⊢
  simpa using validateCardItems_idwarn rule (docItems data) 0 idx i e s herr hi hid hs

/-- Witness for C5 (amended): the id `"B"` does not match `A+` even as a
prefix, so the WARN is emitted. -/
theorem claim5_id_pattern_witness :
    warnF (.idPatternMismatch 0 "B") ∈
      (validateCardFile ⟨[], Regex.cat (.char 'A') (.star (.char 'A')), []⟩
        (Json.obj [("id", Json.str "B")]) []).1 :=
  (claim5_id_pattern ⟨[], Regex.cat (.char 'A') (.star (.char 'A')), []⟩
    (Json.obj [("id", Json.str "B")]) [] 0 (Json.obj [("id", Json.str "B")]) "B"
    (by decide) (by decide) (by decide) (by decide) (by decide)).2 (by decide)

/-! ## Claim C9 — totality of the card-file validator -/

/-- **C9.**  The claim (and the spec's propagation policy) says the card-file
validator always terminates normally, never raising past the element being
checked, for arbitrary parsed documents — including non-string `id`,
`rarity`, or `type` values.  The code violates this: on the single-object
document with `type` equal to the number `5`, `norm_type` calls
`(5).strip()` and raises `AttributeError`, which no caller handles, so the
whole run dies.  This theorem evaluates the embedded validator at that
failing input and shows the exceptional branch is reached. -/
theorem claim9_crash_on_nonstring_type :
    (validateCardFile exCardRule (Json.obj [("type", Json.num 5)]) []).2.2 =
      some PyErr.attributeError := by decide

/-! ## Claim C6 — collection count findings -/

theorem mem_collReqFindings {rule : CollectionRule} {i : Nat} {obj : Json}
    {f : Finding}
    (h : f ∈ rule.requiredFields.filterMap fun fn =>
      if obj.hasKey fn then none else some (errF (.collMissingField i fn))) :
    ∃ fn, f = errF (.collMissingField i fn) := by
  obtain ⟨fn, _, hf⟩ := List.mem_filterMap.1 h
  by_cases hk : obj.hasKey fn
  · simp [hk] at hf
  · simp only [hk, Bool.false_eq_true, if_false, Option.some.injEq] at hf
    exact ⟨fn, hf.symm⟩

/-- Every finding of one collection element carries that element's index. -/
theorem validateCollectionItem_msgIdx (rule : CollectionRule) (i : Nat)
    (v : Json) :
    ∀ f ∈ validateCollectionItem rule i v, collMsgIdx f.msg = some i := by
  intro f hf
  unfold validateCollectionItem at hf
  by_cases h1 : !v.isObj
  · simp only [h1, if_true, List.mem_singleton] at hf
    subst hf; rfl
  · simp only [h1, Bool.false_eq_true, if_false] at hf
    rcases List.mem_append.1 hf with hr | hr
    · obtain ⟨fn, hfn⟩ := mem_collReqFindings hr
      subst hfn; rfl
    · by_cases hint : (v.get "count").pyIsInt
      · simp only [hint, if_true] at hr
        by_cases hrange : (v.get "count").pyToInt < rule.countMin ||
            (v.get "count").pyToInt > rule.countMax
        · simp only [hrange, if_true, List.mem_singleton] at hr
          subst hr; rfl
        · simp only [hrange, Bool.false_eq_true, if_false] at hr
          simp at hr
      · simp only [hint, Bool.false_eq_true, if_false, List.mem_singleton] at hr
        subst hr; rfl

/-- Every finding of the collection loop started at `j` carries an element
index `≥ j`. -/
theorem validateCollectionItems_msgIdx (rule : CollectionRule) :
    ∀ (vs : List Json) (j : Nat),
      ∀ f ∈ validateCollectionItems rule j vs,
        ∃ k, collMsgIdx f.msg = some k ∧ j ≤ k
  | [], _ => by intro f hf; simp [validateCollectionItems] at hf
  | v :: vs, j => by
    intro f hf
    unfold validateCollectionItems at hf
    rcases List.mem_append.1 hf with hr | hr
    · exact ⟨j, validateCollectionItem_msgIdx rule j v f hr, Nat.le_refl j⟩
    · obtain ⟨k, hk, hjk⟩ := validateCollectionItems_msgIdx rule vs (j + 1) f hr
      exact ⟨k, hk, Nat.le_of_succ_le hjk⟩

/-- A finding whose message carries element index `j + i` lies in the
collection loop's findings exactly when it lies in the findings of the
element at list position `i`. -/
theorem mem_collItems_iff (rule : CollectionRule) :
    ∀ (vs : List Json) (j i : Nat) (e : Json) (f : Finding),
      vs.get? i = some e →
      collMsgIdx f.msg = some (j + i) →
      (f ∈ validateCollectionItems rule j vs ↔
        f ∈ validateCollectionItem rule (j + i) e)
  | [], _, i, e, f => by intro hi; simp at hi
  | v :: vs, j, i, e, f => by
    intro hi hidx
    unfold validateCollectionItems
    rw [List.mem_append]
    cases i with
    | zero =>
      simp only [List.get?_cons_zero, Option.some.injEq] at hi
      subst hi
      constructor
      · intro hf
        rcases hf with hr | hr
        · simpa using hr
        · obtain ⟨k, hk, hjk⟩ := validateCollectionItems_msgIdx rule vs (j + 1) f hr
          rw [hidx] at hk
          simp only [Option.some.injEq] at hk
          omega
      · intro hf
        exact .inl (by simpa using hf)
    | succ i' =>
      simp only [List.get?_cons_succ] at hi
      have hrw : j + (i' + 1) = (j + 1) + i' := by omega
      constructor
      · intro hf
        rcases hf with hr | hr
        · have := validateCollectionItem_msgIdx rule j v f hr
          rw [hidx] at this
          simp only [Option.some.injEq] at this
          omega
        · rw [show j + (i' + 1) = (j + 1) + i' from hrw]
          exact (mem_collItems_iff rule vs (j + 1) i' e f hi
            (by rw [hidx, hrw])).1 hr
      · intro hf
        refine .inr ?_
        exact (mem_collItems_iff rule vs (j + 1) i' e f hi (by rw [hidx, hrw])).2
          (by rw [← hrw]; exact hf)

/-- Count-related findings of one collection element that is an object:
ERROR exactly when the `count` value (absent ⇒ `None`) is not a Python
integer; WARN with the value exactly when it is an integer outside the
bounds. -/
theorem validateCollectionItem_count (rule : CollectionRule) (i : Nat)
    (e : Json) (hobj : e.isObj = true) :
    (errF (.countNotInt i) ∈ validateCollectionItem rule i e ↔
      (e.get "count").pyIsInt = false) ∧
    (∀ c, warnF (.countOutOfRange i c rule.countMin rule.countMax) ∈
        validateCollectionItem rule i e ↔
      ((e.get "count").pyIsInt = true ∧ c = (e.get "count").pyToInt ∧
        (c < rule.countMin ∨ c > rule.countMax))) := by
  unfold validateCollectionItem
  simp only [hobj, Bool.not_true, Bool.false_eq_true, if_false]
  constructor
  · constructor
    · intro hf
      rcases List.mem_append.1 hf with hr | hr
      · obtain ⟨fn, hfn⟩ := mem_collReqFindings hr
        simp at hfn
      · by_cases hint : (e.get "count").pyIsInt
        · simp only [hint, if_true] at hr
          by_cases hrange : (e.get "count").pyToInt < rule.countMin ||
              (e.get "count").pyToInt > rule.countMax
          · simp [hrange] at hr
          · simp [hrange] at hr
        · simpa using hint
    · intro hint
      apply List.mem_append.2
      refine .inr ?_
      simp [hint]
  · intro c
    constructor
    · intro hf
      rcases List.mem_append.1 hf with hr | hr
      · obtain ⟨fn, hfn⟩ := mem_collReqFindings hr
        simp at hfn
      · by_cases hint : (e.get "count").pyIsInt
        · simp only [hint, if_true] at hr
          by_cases hrange : (e.get "count").pyToInt < rule.countMin ||
              (e.get "count").pyToInt > rule.countMax
          · simp only [hrange, if_true, List.mem_singleton] at hr
            rw [warnF_inj] at hr
            cases hr
            refine ⟨hint, rfl, ?_⟩
            rcases Bool.or_eq_true_iff.1 hrange with h | h
            · exact .inl (by exact_mod_cast of_decide_eq_true h)
            · exact .inr (by exact_mod_cast of_decide_eq_true h)
          · simp [hrange] at hr
        · simp [hint] at hr
    · rintro ⟨hint, hc, hrange⟩
      apply List.mem_append.2
      refine .inr ?_
      have hb : ((e.get "count").pyToInt < rule.countMin ||
          (e.get "count").pyToInt > rule.countMax) = true := by
        rcases hrange with h | h
        · exact Bool.or_eq_true_iff.2 (.inl (by rw [← hc]; exact decide_eq_true h))
        · exact Bool.or_eq_true_iff.2 (.inr (by rw [← hc]; exact decide_eq_true h))
      simp [hint, hb, hc]

/-- **C6 counterexample.**  The claim says count-related findings are
conditional on `count` being present, and that an element without `count`
gets no count-related finding.  In the code `obj.get("count")` returns
`None` for an absent field, `isinstance(None, int)` is false, and the
`else` branch emits the count ERROR: the empty object (no `count` key, no
required fields configured) yields exactly the count ERROR. -/
theorem claim6_counterexample :
    (Json.obj []).hasKey "count" = false ∧
    validateCollectionFile ⟨[], 0, 99⟩ (Json.arr [Json.obj []]) =
      [errF (.countNotInt 0)] := by
  constructor
  · decide
  · decide

/-- **C6 (amended).**  For every collection-file element that is an object,
the count ERROR is emitted exactly when the `count` value — `None` when the
field is absent — is not a Python integer (so an absent `count` also gets
the ERROR); the out-of-range WARN, reporting the value and the bounds, is
emitted exactly when `count` is an integer outside
`[count_min, count_max]`; an in-bounds integer yields no count-related
finding. -/
theorem claim6_count_findings (rule : CollectionRule) (data : Json) (i : Nat)
    (e : Json) (hload : loadFailed data = false)
    (hi : (docItems data).get? i = some e) (hobj : e.isObj = true) :
    (errF (.countNotInt i) ∈ validateCollectionFile rule data ↔
      (e.get "count").pyIsInt = false) ∧
    (∀ c, warnF (.countOutOfRange i c rule.countMin rule.countMax) ∈
        validateCollectionFile rule data ↔
      ((e.get "count").pyIsInt = true ∧ c = (e.get "count").pyToInt ∧
        (c < rule.countMin ∨ c > rule.countMax))) := by
  unfold validateCollectionFile
  simp only [hload, Bool.false_eq_true, if_false]
  have hitem := validateCollectionItem_count rule i e hobj
  constructor
  · rw [mem_collItems_iff rule (docItems data) 0 i e _ hi (by simp [collMsgIdx])]
    simpa using hitem.1
  · intro c
    rw [mem_collItems_iff rule (docItems data) 0 i e _ hi (by simp [collMsgIdx])]
    simpa using hitem.2 c

/-- Witness for C6 (amended) at the spec's concrete scenario E: an element
with `count: 150` and `count_max` 99 receives the out-of-range WARN. -/
theorem claim6_count_findings_witness :
    warnF (.countOutOfRange 0 150 0 99) ∈
      validateCollectionFile ⟨[], 0, 99⟩
        (Json.arr [Json.obj [("count", Json.num 150)]]) :=
  ((claim6_count_findings ⟨[], 0, 99⟩
      (Json.arr [Json.obj [("count", Json.num 150)]]) 0
      (Json.obj [("count", Json.num 150)]) (by decide) (by decide)
      (by decide)).2 150).mpr (by decide)

/-- The loop body adds the entry's `qty` to the running total exactly when
the entry is well-shaped, in every branch (the entry-level exception
branches included, since `total_qty += qty` precedes them). -/
theorem entryStep_total (tree : List Json) (sfh : Bool) (hid : Json)
    (hf : String) (i : Nat) (e : Json) (st : LoopSt) :
    (entryStep tree sfh hid hf i e st).total =
      st.total + (if wellShaped e then (e.get "qty").pyToInt else 0) := by
  unfold entryStep wellShaped
  by_cases h1 : e.isObj
  · by_cases h2 : (e.get "card_id").pyTruthy
    · by_cases h3 : (e.get "qty").pyIsInt
      · simp only [h1, h2, h3, Bool.not_true, Bool.false_or, Bool.or_self,
          Bool.and_self, Bool.and_true, Bool.true_and, Bool.false_eq_true,
          if_false, if_true]
        split <;> (try rfl) <;> split <;> (try rfl) <;>
          split <;> (try rfl) <;> split <;> (try rfl) <;>
          split <;> (try rfl) <;> split <;> rfl
      · simp [h1, h2, h3]
    · simp [h1, h2]
  · simp [h1]

theorem deckFactionCheck_ok_findings {sfh : Bool} {hf : String} {i : Nat}
    {name meta : Json} {ffs : List Finding}
    (h : deckFactionCheck sfh hf i name meta = .ok ffs) :
    ffs = [] ∨ ∃ cf, ffs = [errF (.cardFactionMismatch i name cf hf)] := by
  unfold deckFactionCheck at h
  by_cases hg : sfh && hf != ""
  · simp only [hg, if_true] at h
    cases hu : pyUpperOrEmpty (meta.get "faction") with
    | error pe => rw [hu] at h; cases h
    | ok cf =>
      rw [hu] at h
      simp only [Except.ok.injEq] at h
      by_cases hcf : cf != "" && cf != hf
      · exact .inr ⟨cf, by rw [← h]; simp [hcf]⟩
      · exact .inl (by rw [← h]; simp [hcf])
  · simp only [hg, Bool.false_eq_true, if_false, Except.ok.injEq] at h
    exact .inl h.symm

/-- With an unknown hero faction the per-card faction check is skipped. -/
theorem deckFactionCheck_emptyHF (sfh : Bool) (i : Nat) (name meta : Json) :
    deckFactionCheck sfh "" i name meta = .ok [] := by
  unfold deckFactionCheck
  simp

/-- The code's hero-seen guard `hero_id and cid == hero_id` agrees with the
claim's plain `cid == hero_id` for every truthy `cid`, because Python-equal
values share their truthiness. -/
theorem heroGuard_eq {hid cid : Json} (hcid : cid.pyTruthy = true) :
    (hid.pyTruthy && cid.pyEq hid) = cid.pyEq hid := by
  cases hq : cid.pyEq hid
  · simp
  · have ht := pyEq_truthy hq
    rw [hcid] at ht
    simp [← ht]

/-- Full characterization of one non-raising pass of the per-card loop body:
the pending exception was already `none`; the Card Index advances by the
resolution replay step; the hero-seen counter advances by the claim's
hero-seen step; the findings grow by entry-shaped messages carrying this
entry's position; and the lookup log grows only by truthy ids. -/
theorem entryStep_spec (tree : List Json) (sfh : Bool) (hid : Json)
    (hf : String) (i : Nat) (e : Json) (st : LoopSt)
    (h : (entryStep tree sfh hid hf i e st).err = none) :
    st.err = none ∧
    (entryStep tree sfh hid hf i e st).idx = replayIdxStep tree e st.idx ∧
    (entryStep tree sfh hid hf i e st).heroSeen =
      st.heroSeen + heroSeenStep tree hid e st.idx ∧
    (∃ ex, (entryStep tree sfh hid hf i e st).findings = st.findings ++ ex ∧
      ∀ f ∈ ex, deckLoopMsg i f) ∧
    (∃ ls, (entryStep tree sfh hid hf i e st).lookups = st.lookups ++ ls ∧
      ∀ c ∈ ls, c.pyTruthy = true) := by
  unfold entryStep at h ⊢
  cases h1 : e.isObj with
  | false =>
    have hws : wellShaped e = false := by simp [wellShaped, h1]
    simp only [h1, Bool.not_false, if_true] at h ⊢
    refine ⟨h, by simp [replayIdxStep, hws], by simp [heroSeenStep, hws],
      ⟨[errF (.entryNotObject i)], rfl, ?_⟩, ⟨[], by simp, by simp⟩⟩
    intro f hfm
    simp only [List.mem_singleton] at hfm
    subst hfm
    exact .inl rfl
  | true =>
    simp only [h1, Bool.not_true, Bool.false_eq_true, if_false] at h ⊢
    cases h2 : (e.get "card_id").pyTruthy with
    | false =>
      have hws : wellShaped e = false := by simp [wellShaped, h2]
      simp only [h2, Bool.not_false, Bool.true_or, if_true] at h ⊢
      refine ⟨h, by simp [replayIdxStep, hws], by simp [heroSeenStep, hws],
        ⟨[errF (.entryBadFields i)], rfl, ?_⟩, ⟨[], by simp, by simp⟩⟩
      intro f hfm
      simp only [List.mem_singleton] at hfm
      subst hfm
      exact .inr (.inl rfl)
    | true =>
      cases h3 : (e.get "qty").pyIsInt with
      | false =>
        have hws : wellShaped e = false := by simp [wellShaped, h3]
        simp only [h2, h3, Bool.not_false, Bool.not_true, Bool.or_true,
          if_true] at h ⊢
        refine ⟨h, by simp [replayIdxStep, hws], by simp [heroSeenStep, hws],
          ⟨[errF (.entryBadFields i)], rfl, ?_⟩, ⟨[], by simp, by simp⟩⟩
        intro f hfm
        simp only [List.mem_singleton] at hfm
        subst hfm
        exact .inr (.inl rfl)
      | true =>
        have hws : wellShaped e = true := by simp [wellShaped, h1, h2, h3]
        simp only [h2, h3, Bool.not_true, Bool.or_self, Bool.false_eq_true,
          if_false] at h ⊢
        cases hlm : loadCardMeta tree st.idx (e.get "card_id") with
        | error pe =>
          rw [hlm] at h
          exact Option.noConfusion h
        | ok r =>
          obtain ⟨mo, idx', sc⟩ := r
          rw [hlm] at h
          cases mo with
          | none =>
            dsimp only at h ⊢
            refine ⟨h, by simp [replayIdxStep, hws, hlm],
              by simp [heroSeenStep, hws, hlm],
              ⟨[errF (.cardNotFound i (e.get "card_id"))], rfl, ?_⟩,
              ⟨[e.get "card_id"], rfl, ?_⟩⟩
            · intro f hfm
              simp only [List.mem_singleton] at hfm
              subst hfm
              exact .inr (.inr (.inl ⟨e.get "card_id", rfl⟩))
            · intro c hc
              simp only [List.mem_singleton] at hc
              subst hc
              exact h2
          | some meta =>
            dsimp only at h ⊢
            cases hn : (pyNameOf meta (e.get "card_id")).unhashable with
            | true =>
              simp only [hn, if_true] at h
              exact Option.noConfusion h
            | false =>
              simp only [hn, Bool.false_eq_true, if_false] at h ⊢
              cases hrf : rarityFlags meta with
              | error pe =>
                rw [hrf] at h
                exact Option.noConfusion h
              | ok fl =>
                rw [hrf] at h
                dsimp only at h ⊢
                cases hfc : deckFactionCheck sfh hf i
                    (pyNameOf meta (e.get "card_id")) meta with
                | error pe =>
                  rw [hfc] at h
                  exact Option.noConfusion h
                | ok ffs =>
                  rw [hfc] at h
                  dsimp only at h ⊢
                  cases hnt : normType (meta.getD "type" (.str "")) with
                  | error pe =>
                    rw [hnt] at h
                    exact Option.noConfusion h
                  | ok t =>
                    rw [hnt] at h
                    dsimp only at h ⊢
                    have hffs : ∀ f ∈ ffs, deckLoopMsg i f := by
                      intro f hfm
                      rcases deckFactionCheck_ok_findings hfc with hp | ⟨cf, hp⟩
                      · simp [hp] at hfm
                      · rw [hp] at hfm
                        simp only [List.mem_singleton] at hfm
                        subst hfm
                        exact .inr (.inr (.inr (.inl
                          ⟨pyNameOf meta (e.get "card_id"), cf, hf, rfl⟩)))
                    have hhs : st.heroSeen +
                        (if (hid.pyTruthy && (e.get "card_id").pyEq hid) = true
                          then (e.get "qty").pyToInt else 0) =
                        st.heroSeen + heroSeenStep tree hid e st.idx := by
                      rw [heroGuard_eq h2]
                      simp [heroSeenStep, hws, hlm]
                    cases htk : (t == "token") with
                    | true =>
                      simp only [htk, if_true] at h ⊢
                      refine ⟨h, by simp [replayIdxStep, hws, hlm], hhs,
                        ⟨ffs ++ [errF (.cardIsToken i (pyNameOf meta (e.get "card_id")))],
                          by simp, ?_⟩,
                        ⟨[e.get "card_id"], rfl, ?_⟩⟩
                      · intro f hfm
                        rcases List.mem_append.1 hfm with hr | hr
                        · exact hffs f hr
                        · simp only [List.mem_singleton] at hr
                          subst hr
                          exact .inr (.inr (.inr (.inr
                            ⟨pyNameOf meta (e.get "card_id"), rfl⟩)))
                      · intro c hc
                        simp only [List.mem_singleton] at hc
                        subst hc
                        exact h2
                    | false =>
                      simp only [htk, Bool.false_eq_true, if_false] at h ⊢
                      refine ⟨h, by simp [replayIdxStep, hws, hlm], hhs,
                        ⟨ffs, rfl, hffs⟩, ⟨[e.get "card_id"], rfl, ?_⟩⟩
                      intro c hc
                      simp only [List.mem_singleton] at hc
                      subst hc
                      exact h2

/-- A loop run that ends without a pending exception started without one. -/
theorem deckLoop_err_none (tree : List Json) (sfh : Bool) (hid : Json)
    (hf : String) :
    ∀ (es : List Json) (i : Nat) (st : LoopSt),
      (deckLoop tree sfh hid hf i es st).err = none → st.err = none
  | [], _, st => by intro h; simpa [deckLoop] using h
  | e :: es, i, st => by
    intro h
    unfold deckLoop at h
    cases hse : st.err.isSome with
    | true => simp only [hse, if_true] at h; exact h
    | false =>
      simp only [hse, Bool.false_eq_true, if_false] at h
      exact (entryStep_spec tree sfh hid hf i e st
        (deckLoop_err_none tree sfh hid hf es (i + 1) _ h)).1

/-- The loop body never erases findings. -/
theorem entryStep_findings_mono (tree : List Json) (sfh : Bool) (hid : Json)
    (hf : String) (i : Nat) (e : Json) (st : LoopSt) :
    ∃ ex, (entryStep tree sfh hid hf i e st).findings = st.findings ++ ex := by
  unfold entryStep
  dsimp only
  split
  · exact ⟨_, rfl⟩
  · split
    · exact ⟨_, rfl⟩
    · split
      · exact ⟨[], by simp⟩
      · exact ⟨_, rfl⟩
      · split
        · exact ⟨[], by simp⟩
        · split
          · exact ⟨[], by simp⟩
          · split
            · exact ⟨[], by simp⟩
            · split
              · exact ⟨_, rfl⟩
              · split
                · exact ⟨_ ++ _, List.append_assoc _ _ _⟩
                · exact ⟨_, rfl⟩

/-- The loop never erases findings. -/
theorem deckLoop_findings_mono (tree : List Json) (sfh : Bool) (hid : Json)
    (hf : String) :
    ∀ (es : List Json) (i : Nat) (st : LoopSt),
      ∃ ex, (deckLoop tree sfh hid hf i es st).findings = st.findings ++ ex
  | [], _, st => ⟨[], by simp [deckLoop]⟩
  | e :: es, i, st => by
    unfold deckLoop
    cases hse : st.err.isSome with
    | true => exact ⟨[], by simp⟩
    | false =>
      simp only [Bool.false_eq_true, if_false]
      obtain ⟨ex1, h1⟩ := entryStep_findings_mono tree sfh hid hf i e st
      obtain ⟨ex2, h2⟩ := deckLoop_findings_mono tree sfh hid hf es (i + 1)
        (entryStep tree sfh hid hf i e st)
      exact ⟨ex1 ++ ex2, by rw [h2, h1, List.append_assoc]⟩

/-- Full characterization of a non-raising run of the per-card loop: the
total advances by the claim's deck total, the Card Index by the resolution
replay, the hero-seen counter by the claim's hero-seen sum; findings grow
only by entry-shaped messages with positions `≥ i`, and the lookup log only
by truthy ids. -/
theorem deckLoop_spec (tree : List Json) (sfh : Bool) (hid : Json)
    (hf : String) :
    ∀ (es : List Json) (i : Nat) (st : LoopSt),
      (deckLoop tree sfh hid hf i es st).err = none →
      (deckLoop tree sfh hid hf i es st).total = st.total + totalQtySpec es ∧
      (deckLoop tree sfh hid hf i es st).idx = replayIdx tree es st.idx ∧
      (deckLoop tree sfh hid hf i es st).heroSeen =
        st.heroSeen + heroSeenSpec tree hid es st.idx ∧
      (∃ ex, (deckLoop tree sfh hid hf i es st).findings = st.findings ++ ex ∧
        ∀ f ∈ ex, ∃ j, i ≤ j ∧ deckLoopMsg j f) ∧
      (∃ ls, (deckLoop tree sfh hid hf i es st).lookups = st.lookups ++ ls ∧
        ∀ c ∈ ls, c.pyTruthy = true)
  | [], _, st => by
    intro _
    refine ⟨by simp [deckLoop, totalQtySpec], by simp [deckLoop, replayIdx],
      by simp [deckLoop, heroSeenSpec], ⟨[], by simp [deckLoop], by simp⟩,
      ⟨[], by simp [deckLoop], by simp⟩⟩
  | e :: es, i, st => by
    intro herr
    unfold deckLoop at herr ⊢
    cases hse : st.err.isSome with
    | true =>
      simp only [hse, if_true] at herr ⊢
      rw [herr] at hse
      simp at hse
    | false =>
      simp only [hse, Bool.false_eq_true, if_false] at herr ⊢
      have hstep := entryStep_spec tree sfh hid hf i e st
        (deckLoop_err_none tree sfh hid hf es (i + 1) _ herr)
      obtain ⟨-, hidx, hhs, ⟨ex1, hex1, hex1m⟩, ⟨ls1, hls1, hls1t⟩⟩ := hstep
      have htot1 := entryStep_total tree sfh hid hf i e st
      obtain ⟨htot2, hidx2, hhs2, ⟨ex2, hex2, hex2m⟩, ⟨ls2, hls2, hls2t⟩⟩ :=
        deckLoop_spec tree sfh hid hf es (i + 1)
          (entryStep tree sfh hid hf i e st) herr
      refine ⟨?_, ?_, ?_, ⟨ex1 ++ ex2, ?_, ?_⟩, ⟨ls1 ++ ls2, ?_, ?_⟩⟩
      · rw [htot2, htot1]
        simp only [totalQtySpec]
        omega
      · rw [hidx2, hidx]
        rfl
      · rw [hhs2, hhs, hidx]
        simp only [heroSeenSpec]
        omega
      · rw [hex2, hex1, List.append_assoc]
      · intro f hfm
        rcases List.mem_append.1 hfm with hr | hr
        · exact ⟨i, Nat.le_refl i, hex1m f hr⟩
        · obtain ⟨j, hij, hmsg⟩ := hex2m f hr
          exact ⟨j, Nat.le_of_succ_le hij, hmsg⟩
      · rw [hls2, hls1, List.append_assoc]
      · intro c hc
        rcases List.mem_append.1 hc with hr | hr
        · exact hls1t c hr
        · exact hls2t c hr

/-- A well-shaped entry that resolves to a token card gets the token ERROR
from the loop body (when the body raises no exception). -/
theorem entryStep_token (tree : List Json) (sfh : Bool) (hid : Json)
    (hf : String) (i : Nat) (e : Json) (st : LoopSt) (m : Json) (idx2 : Index)
    (s : Bool)
    (herr : (entryStep tree sfh hid hf i e st).err = none)
    (hws : wellShaped e = true)
    (hlm : loadCardMeta tree st.idx (e.get "card_id") = .ok (some m, idx2, s))
    (hnt : normType (m.getD "type" (.str "")) = .ok "token") :
    errF (.cardIsToken i (pyNameOf m (e.get "card_id"))) ∈
      (entryStep tree sfh hid hf i e st).findings := by
  have h1 : e.isObj = true := by
    simp only [wellShaped, Bool.and_eq_true] at hws
    exact hws.1.1
  have h2 : (e.get "card_id").pyTruthy = true := by
    simp only [wellShaped, Bool.and_eq_true] at hws
    exact hws.1.2
  have h3 : (e.get "qty").pyIsInt = true := by
    simp only [wellShaped, Bool.and_eq_true] at hws
    exact hws.2
  unfold entryStep at herr ⊢
  simp only [h1, h2, h3, Bool.not_true, Bool.or_self, Bool.false_eq_true,
    if_false] at herr ⊢
  rw [hlm] at herr ⊢
  dsimp only at herr ⊢
  cases hn : (pyNameOf m (e.get "card_id")).unhashable with
  | true =>
    rw [hn] at herr
    simp only [if_true] at herr
    exact Option.noConfusion herr
  | false =>
    rw [hn] at herr
    simp only [Bool.false_eq_true, if_false] at herr ⊢
    cases hrf : rarityFlags m with
    | error pe =>
      try rw [hrf] at herr
      exact Option.noConfusion herr
    | ok fl =>
      try rw [hrf] at herr
      try rw [hrf]
      cases hfc : deckFactionCheck sfh hf i (pyNameOf m (e.get "card_id")) m with
      | error pe =>
        try rw [hfc] at herr
        exact Option.noConfusion herr
      | ok ffs =>
        try rw [hfc] at herr
        try rw [hfc]
        rw [hnt]
        simp

/-- Positional version of the token emission through the whole loop: the
entry at position `n` (resolved against the index replayed over the first
`n` entries) that is a token yields the token ERROR in the loop's
findings. -/
theorem deckLoop_token (tree : List Json) (sfh : Bool) (hid : Json)
    (hf : String) :
    ∀ (es : List Json) (j : Nat) (st : LoopSt) (n : Nat) (e m : Json),
      (deckLoop tree sfh hid hf j es st).err = none →
      es.get? n = some e →
      wellShaped e = true →
      (∃ idx2 s, loadCardMeta tree (replayIdx tree (es.take n) st.idx)
        (e.get "card_id") = .ok (some m, idx2, s)) →
      normType (m.getD "type" (.str "")) = .ok "token" →
      errF (.cardIsToken (j + n) (pyNameOf m (e.get "card_id"))) ∈
        (deckLoop tree sfh hid hf j es st).findings
  | [], _, _, n, e, m => by intro _ hn; simp at hn
  | v :: es, j, st, n, e, m => by
    intro herr hn hws hres hnt
    unfold deckLoop at herr ⊢
    cases hse : st.err.isSome with
    | true =>
      simp only [hse, if_true] at herr ⊢
      rw [herr] at hse
      simp at hse
    | false =>
      simp only [hse, Bool.false_eq_true, if_false] at herr ⊢
      have hstepok := deckLoop_err_none tree sfh hid hf es (j + 1) _ herr
      cases n with
      | zero =>
        simp only [List.get?_cons_zero, Option.some.injEq] at hn
        subst hn
        obtain ⟨idx2, s, hlm⟩ := hres
        simp only [List.take_zero, replayIdx] at hlm
        have hmem := entryStep_token tree sfh hid hf j v st m idx2 s
          hstepok hws hlm hnt
        obtain ⟨ex, hex⟩ := deckLoop_findings_mono tree sfh hid hf es (j + 1)
          (entryStep tree sfh hid hf j v st)
        rw [Nat.add_zero]
        rw [hex]
        exact List.mem_append.2 (.inl hmem)
      | succ n' =>
        simp only [List.get?_cons_succ] at hn
        obtain ⟨idx2, s, hlm⟩ := hres
        have hidx := (entryStep_spec tree sfh hid hf j v st hstepok).2.1
        have hres' : ∃ idx2 s, loadCardMeta tree
            (replayIdx tree (es.take n') (entryStep tree sfh hid hf j v st).idx)
            (e.get "card_id") = .ok (some m, idx2, s) := by
          refine ⟨idx2, s, ?_⟩
          rw [hidx]
          simpa [List.take_succ_cons, replayIdx] using hlm
        have := deckLoop_token tree sfh hid hf es (j + 1)
          (entryStep tree sfh hid hf j v st) n' e m herr hn hws hres' hnt
        have hrw : j + (n' + 1) = (j + 1) + n' := by omega
        rw [hrw]
        exact this

/-- A loop run with an unknown hero faction never emits a per-card
faction-mismatch ERROR beyond the findings it started with. -/
theorem deckLoop_no_factionMismatch (tree : List Json) (sfh : Bool)
    (hid : Json) :
    ∀ (es : List Json) (i : Nat) (st : LoopSt) (j : Nat) (n : Json)
      (a b : String),
      errF (.cardFactionMismatch j n a b) ∈
        (deckLoop tree sfh hid "" i es st).findings →
      errF (.cardFactionMismatch j n a b) ∈ st.findings
  | [], _, st, j, n, a, b => by intro h; simpa [deckLoop] using h
  | e :: es, i, st, j, n, a, b => by
    intro h
    unfold deckLoop at h
    cases hse : st.err.isSome with
    | true => simpa [hse] using h
    | false =>
      simp only [hse, Bool.false_eq_true, if_false] at h
      have h2 := deckLoop_no_factionMismatch tree sfh hid es (i + 1)
        (entryStep tree sfh hid "" i e st) j n a b h
      -- peel the entry step: its appended findings cannot be a
      -- faction-mismatch ERROR because the hero faction is unknown
      unfold entryStep at h2
      dsimp only at h2
      split at h2
      · rcases List.mem_append.1 h2 with hr | hr
        · exact hr
        · simp at hr
      · split at h2
        · rcases List.mem_append.1 h2 with hr | hr
          · exact hr
          · simp at hr
        · split at h2
          · exact h2
          · rcases List.mem_append.1 h2 with hr | hr
            · exact hr
            · simp at hr
          · split at h2
            · exact h2
            · split at h2
              · exact h2
              · split at h2
                · exact h2
                · rename_i hfc
                  rw [deckFactionCheck_emptyHF sfh i _ _] at hfc
                  cases hfc
                  split at h2
                  · simpa using h2
                  · split at h2
                    · simpa using h2
                    · simpa using h2

theorem mem_deckReqFindings {cfg : DeckRule} {data : Json} {f : Finding}
    (h : f ∈ deckReqFindings cfg data) : ∃ fn, f = errF (.deckMissingField fn) := by
  unfold deckReqFindings at h
  obtain ⟨fn, _, hf⟩ := List.mem_filterMap.1 h
  by_cases hk : data.hasKey fn
  · simp [hk] at hf
  · simp only [hk, Bool.false_eq_true, if_false, Option.some.injEq] at hf
    exact ⟨fn, hf.symm⟩

/-- The hero block leaves the Card Index exactly as `heroIdxAfter` says. -/
theorem heroPhase_idx (tree : List Json) (idx : Index) (hid : Json)
    (df : String) :
    (heroPhase tree idx hid df).2.2.1 = heroIdxAfter tree idx hid := by
  unfold heroPhase heroIdxAfter
  cases ht : hid.pyTruthy with
  | false => simp
  | true =>
    simp only [Bool.not_true, Bool.false_eq_true, if_false, if_true]
    cases hlm : loadCardMeta tree idx hid with
    | error e => rfl
    | ok r =>
      obtain ⟨mo, idx', sc⟩ := r
      cases mo with
      | none => rfl
      | some meta =>
        dsimp only
        cases normType (meta.getD "type" (.str "")) with
        | error e => rfl
        | ok t =>
          dsimp only
          cases pyUpperOrEmpty (meta.get "faction") with
          | error e => rfl
          | ok hf => rfl

/-- The shapes of the findings the hero block can emit. -/
theorem heroPhase_findings_shapes (tree : List Json) (idx : Index)
    (hid : Json) (df : String) :
    ∀ f ∈ (heroPhase tree idx hid df).1,
      f = errF .heroIdMissing ∨ (∃ h, f = errF (.heroNotFound h)) ∨
      (∃ h t, f = errF (.heroNotHero h t)) ∨
      (∃ a b, f = errF (.deckFactionMismatch a b)) := by
  intro f hf
  unfold heroPhase at hf
  cases ht : hid.pyTruthy with
  | false =>
    simp only [ht, Bool.not_false, if_true, List.mem_singleton] at hf
    exact .inl hf
  | true =>
    simp only [ht, Bool.not_true, Bool.false_eq_true, if_false] at hf
    cases hlm : loadCardMeta tree idx hid with
    | error e => rw [hlm] at hf; simp at hf
    | ok r =>
      rw [hlm] at hf
      obtain ⟨mo, idx', sc⟩ := r
      cases mo with
      | none =>
        simp only [List.mem_singleton] at hf
        exact .inr (.inl ⟨hid, hf⟩)
      | some meta =>
        dsimp only at hf
        cases hnt : normType (meta.getD "type" (.str "")) with
        | error e => rw [hnt] at hf; simp at hf
        | ok t =>
          rw [hnt] at hf
          dsimp only at hf
          cases hup : pyUpperOrEmpty (meta.get "faction") with
          | error e =>
            rw [hup] at hf
            by_cases hth : t != "hero"
            · simp only [hth, if_true, List.mem_singleton] at hf
              exact .inr (.inr (.inl ⟨hid, meta.get "type", hf⟩))
            · simp only [hth, Bool.false_eq_true, if_false] at hf
              simp at hf
          | ok hfac =>
            rw [hup] at hf
            dsimp only at hf
            rcases List.mem_append.1 hf with hr | hr
            · by_cases hth : t != "hero"
              · simp only [hth, if_true, List.mem_singleton] at hr
                exact .inr (.inr (.inl ⟨hid, meta.get "type", hr⟩))
              · simp only [hth, Bool.false_eq_true, if_false] at hr
                simp at hr
            · by_cases hdf : df != "" && hfac != "" && df != hfac
              · simp only [hdf, if_true, List.mem_singleton] at hr
                exact .inr (.inr (.inr ⟨df, hfac, hr⟩))
              · simp only [hdf, Bool.false_eq_true, if_false] at hr
                simp at hr

/-- The hero block with a falsy hero id: the single missing-hero ERROR, an
unknown hero faction, an untouched index, and no lookup at all. -/
theorem heroPhase_falsy (tree : List Json) (idx : Index) (hid : Json)
    (df : String) (h : hid.pyTruthy = false) :
    heroPhase tree idx hid df = ([errF .heroIdMissing], "", idx, [], none) := by
  unfold heroPhase
  simp [h]

/-- The hero block looks up only the hero id. -/
theorem heroPhase_lookups (tree : List Json) (idx : Index) (hid : Json)
    (df : String) :
    ∀ c ∈ (heroPhase tree idx hid df).2.2.2.1, c = hid := by
  intro c hc
  unfold heroPhase at hc
  cases ht : hid.pyTruthy with
  | false => simp only [ht, Bool.not_false, if_true] at hc; simp at hc
  | true =>
    simp only [ht, Bool.not_true, Bool.false_eq_true, if_false] at hc
    cases hlm : loadCardMeta tree idx hid with
    | error e => rw [hlm] at hc; simpa using hc
    | ok r =>
      rw [hlm] at hc
      obtain ⟨mo, idx', sc⟩ := r
      cases mo with
      | none => simpa using hc
      | some meta =>
        dsimp only at hc
        cases hnt : normType (meta.getD "type" (.str "")) with
        | error e => rw [hnt] at hc; simpa using hc
        | ok t =>
          rw [hnt] at hc
          dsimp only at hc
          cases hup : pyUpperOrEmpty (meta.get "faction") with
          | error e => rw [hup] at hc; simpa using hc
          | ok hfac => rw [hup] at hc; simpa using hc

/-- The deck-size ERROR appears among the aggregate findings exactly when
the accumulated total is out of bounds (and it reports that total). -/
theorem mem_deckAggregates_deckSize (cfg : DeckRule) (st : LoopSt) (t : Int) :
    (errF (.deckSize t cfg.minCards cfg.maxCards) ∈ deckAggregates cfg st ↔
      t = st.total ∧ (st.total < cfg.minCards ∨ st.total > cfg.maxCards)) := by
  unfold deckAggregates
  constructor
  · intro hf
    rcases List.mem_append.1 hf with hr | hr
    · rcases List.mem_append.1 hr with hr2 | hr2
      · rcases List.mem_append.1 hr2 with hr3 | hr3
        · rcases List.mem_append.1 hr3 with hr4 | hr4
          · by_cases hc : st.total < cfg.minCards || st.total > cfg.maxCards
            · simp only [hc, if_true, List.mem_singleton] at hr4
              rw [errF_inj] at hr4
              cases hr4
              refine ⟨rfl, ?_⟩
              rcases Bool.or_eq_true_iff.1 hc with h | h
              · exact .inl (by exact_mod_cast of_decide_eq_true h)
              · exact .inr (by exact_mod_cast of_decide_eq_true h)
            · simp [hc] at hr4
          · obtain ⟨p, _, hp⟩ := List.mem_filterMap.1 hr4
            by_cases hc : p.2 > cfg.maxSame
            · simp only [hc, if_true, Option.some.injEq] at hp
              simp at hp
            · simp [hc] at hp
        · by_cases hc : st.rare > cfg.maxRare
          · simp [hc] at hr3
          · simp [hc] at hr3
      · by_cases hc : st.uniq > cfg.maxUnique
        · simp [hc] at hr2
        · simp [hc] at hr2
    · by_cases hc : cfg.uniqueHero && st.heroSeen != 1
      · simp [hc] at hr
      · simp [hc] at hr
  · rintro ⟨ht, hrange⟩
    subst ht
    apply List.mem_append.2
    refine .inl (List.mem_append.2 (.inl (List.mem_append.2 (.inl
      (List.mem_append.2 (.inl ?_))))))
    have hc : (st.total < cfg.minCards || st.total > cfg.maxCards) = true := by
      rcases hrange with h | h
      · exact Bool.or_eq_true_iff.2 (.inl (decide_eq_true h))
      · exact Bool.or_eq_true_iff.2 (.inr (decide_eq_true h))
    simp [hc]

/-- The hero-copies ERROR appears among the aggregate findings exactly when
`unique_hero` is enabled and the accumulated hero-seen count is not 1 (and
it reports that count). -/
theorem mem_deckAggregates_heroCopies (cfg : DeckRule) (st : LoopSt) (s : Int) :
    (errF (.heroCopies s) ∈ deckAggregates cfg st ↔
      s = st.heroSeen ∧ cfg.uniqueHero = true ∧ st.heroSeen ≠ 1) := by
  unfold deckAggregates
  constructor
  · intro hf
    rcases List.mem_append.1 hf with hr | hr
    · rcases List.mem_append.1 hr with hr2 | hr2
      · rcases List.mem_append.1 hr2 with hr3 | hr3
        · rcases List.mem_append.1 hr3 with hr4 | hr4
          · by_cases hc : st.total < cfg.minCards || st.total > cfg.maxCards
            · simp [hc] at hr4
            · simp [hc] at hr4
          · obtain ⟨p, _, hp⟩ := List.mem_filterMap.1 hr4
            by_cases hc : p.2 > cfg.maxSame
            · simp only [hc, if_true, Option.some.injEq] at hp
              simp at hp
            · simp [hc] at hp
        · by_cases hc : st.rare > cfg.maxRare
          · simp [hc] at hr3
          · simp [hc] at hr3
      · by_cases hc : st.uniq > cfg.maxUnique
        · simp [hc] at hr2
        · simp [hc] at hr2
    · by_cases hc : cfg.uniqueHero && st.heroSeen != 1
      · simp only [hc, if_true, List.mem_singleton] at hr
        rw [errF_inj] at hr
        cases hr
        obtain ⟨hu, hne⟩ := Bool.and_eq_true_iff.1 hc
        exact ⟨rfl, hu, by simpa using hne⟩
      · simp [hc] at hr
  · rintro ⟨hs, hu, hne⟩
    subst hs
    apply List.mem_append.2
    refine .inr ?_
    have hc : (cfg.uniqueHero && st.heroSeen != 1) = true :=
      Bool.and_eq_true_iff.2 ⟨hu, by simpa using hne⟩
    simp [hc]

/-- The shapes of the aggregate findings. -/
theorem mem_deckAggregates_shapes (cfg : DeckRule) (st : LoopSt) :
    ∀ f ∈ deckAggregates cfg st,
      (∃ a b c, f = errF (.deckSize a b c)) ∨
      (∃ n a b, f = errF (.tooManyCopies n a b)) ∨
      (∃ a b, f = errF (.tooManyRare a b)) ∨
      (∃ a b, f = errF (.tooManyUnique a b)) ∨
      (∃ a, f = errF (.heroCopies a)) := by
  intro f hf
  unfold deckAggregates at hf
  rcases List.mem_append.1 hf with hr | hr
  · rcases List.mem_append.1 hr with hr2 | hr2
    · rcases List.mem_append.1 hr2 with hr3 | hr3
      · rcases List.mem_append.1 hr3 with hr4 | hr4
        · by_cases hc : st.total < cfg.minCards || st.total > cfg.maxCards
          · simp only [hc, if_true, List.mem_singleton] at hr4
            exact .inl ⟨st.total, cfg.minCards, cfg.maxCards, hr4⟩
          · simp [hc] at hr4
        · obtain ⟨p, _, hp⟩ := List.mem_filterMap.1 hr4
          by_cases hc : p.2 > cfg.maxSame
          · simp only [hc, if_true, Option.some.injEq] at hp
            exact .inr (.inl ⟨p.1, p.2, cfg.maxSame, hp.symm⟩)
          · simp [hc] at hp
      · by_cases hc : st.rare > cfg.maxRare
        · simp only [hc, if_true, List.mem_singleton] at hr3
          exact .inr (.inr (.inl ⟨st.rare, cfg.maxRare, hr3⟩))
        · simp [hc] at hr3
    · by_cases hc : st.uniq > cfg.maxUnique
      · simp only [hc, if_true, List.mem_singleton] at hr2
        exact .inr (.inr (.inr (.inl ⟨st.uniq, cfg.maxUnique, hr2⟩)))
      · simp [hc] at hr2
  · by_cases hc : cfg.uniqueHero && st.heroSeen != 1
    · simp only [hc, if_true, List.mem_singleton] at hr
      exact .inr (.inr (.inr (.inr ⟨st.heroSeen, hr⟩)))
    · simp [hc] at hr

/-- Unconditional shape of the findings the loop body appends. -/
theorem entryStep_findings_shapes (tree : List Json) (sfh : Bool) (hid : Json)
    (hf : String) (i : Nat) (e : Json) (st : LoopSt) :
    ∀ f ∈ (entryStep tree sfh hid hf i e st).findings,
      f ∈ st.findings ∨ deckLoopMsg i f := by
  intro f hfm
  unfold entryStep at hfm
  dsimp only at hfm
  split at hfm
  · rcases List.mem_append.1 hfm with hr | hr
    · exact .inl hr
    · simp only [List.mem_singleton] at hr
      exact .inr (.inl hr)
  · split at hfm
    · rcases List.mem_append.1 hfm with hr | hr
      · exact .inl hr
      · simp only [List.mem_singleton] at hr
        exact .inr (.inr (.inl hr))
    · split at hfm
      · exact .inl hfm
      · rcases List.mem_append.1 hfm with hr | hr
        · exact .inl hr
        · simp only [List.mem_singleton] at hr
          exact .inr (.inr (.inr (.inl ⟨e.get "card_id", hr⟩)))
      · split at hfm
        · exact .inl hfm
        · split at hfm
          · exact .inl hfm
          · split at hfm
            · exact .inl hfm
            · rename_i ffs hfc
              have hffs : ∀ g ∈ ffs, deckLoopMsg i g := by
                intro g hg
                rcases deckFactionCheck_ok_findings hfc with hp | ⟨cf, hp⟩
                · simp [hp] at hg
                · rw [hp] at hg
                  simp only [List.mem_singleton] at hg
                  subst hg
                  exact .inr (.inr (.inr (.inl ⟨_, cf, hf, rfl⟩)))
              split at hfm
              · rcases List.mem_append.1 hfm with hr | hr
                · exact .inl hr
                · exact .inr (hffs f hr)
              · split at hfm
                · rcases List.mem_append.1 hfm with hr | hr
                  · rcases List.mem_append.1 hr with hr2 | hr2
                    · exact .inl hr2
                    · exact .inr (hffs f hr2)
                  · simp only [List.mem_singleton] at hr
                    subst hr
                    exact .inr (.inr (.inr (.inr (.inr ⟨_, rfl⟩))))
                · rcases List.mem_append.1 hfm with hr | hr
                  · exact .inl hr
                  · exact .inr (hffs f hr)

/-- Unconditional shape of the findings the whole loop appends. -/
theorem deckLoop_findings_shapes (tree : List Json) (sfh : Bool) (hid : Json)
    (hf : String) :
    ∀ (es : List Json) (i : Nat) (st : LoopSt),
      ∀ f ∈ (deckLoop tree sfh hid hf i es st).findings,
        f ∈ st.findings ∨ ∃ j, deckLoopMsg j f
  | [], _, st => by intro f hfm; exact .inl (by simpa [deckLoop] using hfm)
  | e :: es, i, st => by
    intro f hfm
    unfold deckLoop at hfm
    cases hse : st.err.isSome with
    | true => exact .inl (by simpa [hse] using hfm)
    | false =>
      simp only [hse, Bool.false_eq_true, if_false] at hfm
      rcases deckLoop_findings_shapes tree sfh hid hf es (i + 1)
        (entryStep tree sfh hid hf i e st) f hfm with hr | hr
      · rcases entryStep_findings_shapes tree sfh hid hf i e st f hr with h2 | h2
        · exact .inl h2
        · exact .inr ⟨i, h2⟩
      · exact .inr hr

/-- Decomposition of a non-raising deck validation whose `cards` value passed
the sequence gate: the faction extraction succeeded, the hero block finished
without raising, the loop finished without raising, and the result is the
loop findings followed by the aggregate findings. -/
theorem validateDeckFile_run (cfg : DeckRule) (tree : List Json) (idx : Index)
    (data : Json) (l : List Json)
    (hload : loadFailed data = false) (hobj : data.isObj = true)
    (hcards : deckCards data = Json.arr l)
    (herr : (validateDeckFile cfg tree idx data).err = none) :
    ∃ df hF hfac idx1 lk1 st,
      pyUpperOrEmpty (data.get "faction") = Except.ok df ∧
      heroPhase tree idx (data.get "hero_id") df = (hF, hfac, idx1, lk1, none) ∧
      st = deckLoop tree cfg.sameFactionAsHero (data.get "hero_id") hfac 0 l
        ⟨0, [], 0, 0, 0, idx1, deckReqFindings cfg data ++ hF, lk1, none⟩ ∧
      st.err = none ∧
      validateDeckFile cfg tree idx data =
        ⟨st.findings ++ deckAggregates cfg st, st.idx, st.lookups, none⟩ := by
  unfold validateDeckFile at herr ⊢
  simp only [hload, Bool.false_eq_true, if_false, hobj, Bool.not_true] at herr ⊢
  cases hup : pyUpperOrEmpty (data.get "faction") with
  | error e =>
    try rw [hup] at herr
    exact Option.noConfusion herr
  | ok df =>
    try rw [hup] at herr
    rw [hcards] at herr ⊢
    dsimp only at herr ⊢
    rcases hhp : heroPhase tree idx (data.get "hero_id") df with
      ⟨hF, hfac, idx1, lk1, e5⟩
    try rw [hhp] at herr
    cases e5 with
    | some e =>
      dsimp only at herr
      exact Option.noConfusion herr
    | none =>
      dsimp only at herr ⊢
      cases hst : (deckLoop tree cfg.sameFactionAsHero (data.get "hero_id")
          hfac 0 l ⟨0, [], 0, 0, 0, idx1,
            deckReqFindings cfg data ++ hF, lk1, none⟩).err with
      | some e =>
        try rw [hst] at herr
        exact Option.noConfusion herr
      | none =>
        refine ⟨df, hF, hfac, idx1, lk1, _, rfl, hhp, rfl, hst, ?_⟩
        try rw [hst]
        rfl

/-- Shapes of all findings recorded before the aggregate checks run. -/
theorem preAggregate_shapes (cfg : DeckRule) (tree : List Json) (idx : Index)
    (data : Json) (l : List Json) (df : String) (hF : List Finding)
    (hfac : String) (idx1 : Index) (lk1 : List Json) (st : LoopSt)
    (hhp : heroPhase tree idx (data.get "hero_id") df = (hF, hfac, idx1, lk1, none))
    (hst : st = deckLoop tree cfg.sameFactionAsHero (data.get "hero_id") hfac 0 l
      ⟨0, [], 0, 0, 0, idx1, deckReqFindings cfg data ++ hF, lk1, none⟩) :
    ∀ f ∈ st.findings,
      (∃ fn, f = errF (.deckMissingField fn)) ∨
      f = errF .heroIdMissing ∨ (∃ h, f = errF (.heroNotFound h)) ∨
      (∃ h t, f = errF (.heroNotHero h t)) ∨
      (∃ a b, f = errF (.deckFactionMismatch a b)) ∨
      (∃ j, deckLoopMsg j f) := by
  intro f hm
  rw [hst] at hm
  rcases deckLoop_findings_shapes tree cfg.sameFactionAsHero
      (data.get "hero_id") hfac l 0 _ f hm with hr | hr
  · rcases List.mem_append.1 hr with hr2 | hr2
    · exact .inl (mem_deckReqFindings hr2)
    · rcases heroPhase_findings_shapes tree idx (data.get "hero_id") df f
        (by rw [hhp]; exact hr2) with h | ⟨a, h⟩ | ⟨a, b, h⟩ | ⟨a, b, h⟩
      · exact .inr (.inl h)
      · exact .inr (.inr (.inl ⟨a, h⟩))
      · exact .inr (.inr (.inr (.inl ⟨a, b, h⟩)))
      · exact .inr (.inr (.inr (.inr (.inl ⟨a, b, h⟩))))
  · exact .inr (.inr (.inr (.inr (.inr hr))))

/-- **C1.**  For every deck file whose parsed content is an object with a
sequence-valued `cards` field, and whose validation raises no exception, the
validator emits the aggregate deck-size ERROR — reporting the claim's total
`T` (the sum of `qty` over exactly the well-shaped entries, resolution
playing no role) together with the bounds — exactly when `T < min_cards` or
`T > max_cards`. -/
theorem claim1_deck_size (cfg : DeckRule) (tree : List Json) (idx : Index)
    (data : Json) (l : List Json)
    (hload : loadFailed data = false) (hobj : data.isObj = true)
    (hcards : deckCards data = Json.arr l)
    (herr : (validateDeckFile cfg tree idx data).err = none) :
    (errF (.deckSize (totalQtySpec l) cfg.minCards cfg.maxCards) ∈
        (validateDeckFile cfg tree idx data).findings ↔
      (totalQtySpec l < cfg.minCards ∨ totalQtySpec l > cfg.maxCards)) := by
  obtain ⟨df, hF, hfac, idx1, lk1, st, hup, hhp, hst, hsterr, heq⟩ :=
    validateDeckFile_run cfg tree idx data l hload hobj hcards herr
  rw [heq]
  have hsterr' : (deckLoop tree cfg.sameFactionAsHero (data.get "hero_id")
      hfac 0 l ⟨0, [], 0, 0, 0, idx1, deckReqFindings cfg data ++ hF, lk1,
        none⟩).err = none := by rw [← hst]; exact hsterr
  have htot : st.total = totalQtySpec l := by
    rw [hst]
    have := (deckLoop_spec tree cfg.sameFactionAsHero (data.get "hero_id")
      hfac l 0 _ hsterr').1
    rw [this]
    simp
  have hpre := preAggregate_shapes cfg tree idx data l df hF hfac idx1 lk1 st
    hhp hst
  constructor
  · intro hmem
    rcases List.mem_append.1 hmem with hr | hr
    · rcases hpre _ hr with ⟨fn, h⟩ | h | ⟨a, h⟩ | ⟨a, b, h⟩ | ⟨a, b, h⟩ |
        ⟨j, h | h | ⟨c, h⟩ | ⟨n, a, b, h⟩ | ⟨n, h⟩⟩ <;> simp at h
    · have := (mem_deckAggregates_deckSize cfg st (totalQtySpec l)).1 hr
      rw [← htot]
      exact this.2
  · intro hbound
    apply List.mem_append.2
    refine .inr ((mem_deckAggregates_deckSize cfg st (totalQtySpec l)).2
      ⟨htot.symm, ?_⟩)
    rw [htot]
    exact hbound

/-- Witness for C1: the scenario-B deck totals 35 and receives the
`Deck size 35 not in [40, 60]` ERROR. -/
theorem claim1_deck_size_witness :
    errF (.deckSize (totalQtySpec exCardsB) 40 60) ∈
      (validateDeckFile exDeckRule exTree [] exDeckB).findings :=
  (claim1_deck_size exDeckRule exTree [] exDeckB exCardsB (by decide)
    (by decide) (by decide) (by decide)).mpr (by decide)

/-- **C2.**  For every deck (an object whose `cards` value passes the
sequence gate) validated without an exception and with `unique_hero`
enabled, the validator emits the hero-copies ERROR exactly when the
accumulated hero-seen count `S` — the sum of `qty` over well-shaped,
resolved entries whose `card_id` equals the deck's `hero_id` — differs from
1; in particular a deck whose hero never appears (`S = 0`) and one whose
hero's summed quantity exceeds one both get the ERROR. -/
theorem claim2_unique_hero (cfg : DeckRule) (tree : List Json) (idx : Index)
    (data : Json) (l : List Json)
    (hload : loadFailed data = false) (hobj : data.isObj = true)
    (hcards : deckCards data = Json.arr l)
    (herr : (validateDeckFile cfg tree idx data).err = none)
    (hu : cfg.uniqueHero = true) :
    (errF (.heroCopies (heroSeenSpec tree (data.get "hero_id") l
        (heroIdxAfter tree idx (data.get "hero_id")))) ∈
      (validateDeckFile cfg tree idx data).findings ↔
      heroSeenSpec tree (data.get "hero_id") l
        (heroIdxAfter tree idx (data.get "hero_id")) ≠ 1) := by
  obtain ⟨df, hF, hfac, idx1, lk1, st, hup, hhp, hst, hsterr, heq⟩ :=
    validateDeckFile_run cfg tree idx data l hload hobj hcards herr
  rw [heq]
  have hsterr' : (deckLoop tree cfg.sameFactionAsHero (data.get "hero_id")
      hfac 0 l ⟨0, [], 0, 0, 0, idx1, deckReqFindings cfg data ++ hF, lk1,
        none⟩).err = none := by rw [← hst]; exact hsterr
  have hidx1 : idx1 = heroIdxAfter tree idx (data.get "hero_id") := by
    have := heroPhase_idx tree idx (data.get "hero_id") df
    rw [hhp] at this
    exact this
  have hhs : st.heroSeen = heroSeenSpec tree (data.get "hero_id") l
      (heroIdxAfter tree idx (data.get "hero_id")) := by
    rw [hst]
    have := (deckLoop_spec tree cfg.sameFactionAsHero (data.get "hero_id")
      hfac l 0 _ hsterr').2.2.1
    rw [this, ← hidx1]
    simp
  have hpre := preAggregate_shapes cfg tree idx data l df hF hfac idx1 lk1 st
    hhp hst
  constructor
  · intro hmem
    rcases List.mem_append.1 hmem with hr | hr
    · rcases hpre _ hr with ⟨fn, h⟩ | h | ⟨a, h⟩ | ⟨a, b, h⟩ | ⟨a, b, h⟩ |
        ⟨j, h | h | ⟨c, h⟩ | ⟨n, a, b, h⟩ | ⟨n, h⟩⟩ <;> simp at h
    · have := (mem_deckAggregates_heroCopies cfg st _).1 hr
      rw [← hhs]
      exact this.2.2
  · intro hne
    apply List.mem_append.2
    refine .inr ((mem_deckAggregates_heroCopies cfg st _).2 ⟨hhs.symm, hu, ?_⟩)
    rw [hhs]
    exact hne

/-- Witness for C2: a deck whose hero appears with quantity 2 receives the
`Hero copies must be exactly 1 (found 2)` ERROR. -/
theorem claim2_unique_hero_witness :
    errF (.heroCopies (heroSeenSpec exTree (exDeckH2.get "hero_id") exCardsH2
        (heroIdxAfter exTree [] (exDeckH2.get "hero_id")))) ∈
      (validateDeckFile exDeckRule exTree [] exDeckH2).findings :=
  (claim2_unique_hero exDeckRule exTree [] exDeckH2 exCardsH2 (by decide)
    (by decide) (by decide) (by decide) (by decide)).mpr (by decide)

/-- A truthy non-sequence `cards` value makes the validator emit the
cards-must-be-a-list ERROR and abort: only the required-field findings
precede it, the index is untouched, nothing is looked up, and no exception
is raised. -/
theorem validateDeckFile_badCards (cfg : DeckRule) (tree : List Json)
    (idx : Index) (data : Json) (df : String)
    (hload : loadFailed data = false) (hobj : data.isObj = true)
    (hfaction : pyUpperOrEmpty (data.get "faction") = .ok df)
    (htr : (data.get "cards").pyTruthy = true)
    (hnarr : (data.get "cards").isArr = false) :
    validateDeckFile cfg tree idx data =
      ⟨deckReqFindings cfg data ++ [errF .cardsMustBeList], idx, [], none⟩ := by
  have hdc : deckCards data = data.get "cards" := by
    unfold deckCards
    simp [htr]
  unfold validateDeckFile
  simp only [hload, Bool.false_eq_true, if_false, hobj, Bool.not_true]
  rw [hfaction]
  dsimp only
  rw [hdc]
  cases hc : data.get "cards" with
  | arr l => simp [hc, Json.isArr] at hnarr
  | null => simp [hc, Json.pyTruthy] at htr
  | bool b => rfl
  | num n => rfl
  | str s => rfl
  | obj fs => rfl

/-- **C7 counterexample.**  The claim says a deck whose `cards` value is not
a sequence — the value `0` included — gets the cards-must-be-a-list ERROR
and aborts.  But `data.get("cards") or []` replaces every falsy value by the
empty list, so the deck `{"cards": 0}` sails through the gate: no such ERROR
is emitted (validation continues and reports a deck of size 0 instead). -/
theorem claim7_counterexample :
    ((Json.obj [("cards", Json.num 0)]).get "cards").isArr = false ∧
    errF .cardsMustBeList ∉
      (validateDeckFile exDeckRule [] []
        (Json.obj [("cards", Json.num 0)])).findings := by
  constructor
  · decide
  · decide

/-- **C7 (amended).**  For a deck object (whose `faction` value does not
raise), the validator emits the cards-must-be-a-list ERROR and aborts the
remaining checks exactly when the `cards` value is truthy and not a
sequence; a falsy `cards` value (null, false, 0, empty string, or absent) is
silently replaced by the empty list and validation proceeds without this
ERROR. -/
theorem claim7_cards_gate (cfg : DeckRule) (tree : List Json) (idx : Index)
    (data : Json) (df : String)
    (hload : loadFailed data = false) (hobj : data.isObj = true)
    (hfaction : pyUpperOrEmpty (data.get "faction") = .ok df) :
    (((data.get "cards").pyTruthy = true ∧ (data.get "cards").isArr = false) →
      validateDeckFile cfg tree idx data =
        ⟨deckReqFindings cfg data ++ [errF .cardsMustBeList], idx, [], none⟩) ∧
    (((data.get "cards").pyTruthy = false ∨ (data.get "cards").isArr = true) →
      errF .cardsMustBeList ∉ (validateDeckFile cfg tree idx data).findings) := by
  constructor
  · rintro ⟨htr, hnarr⟩
    exact validateDeckFile_badCards cfg tree idx data df hload hobj hfaction
      htr hnarr
  · intro hok
    have hdc : ∃ l, deckCards data = Json.arr l := by
      rcases hok with h | h
      · exact ⟨[], by unfold deckCards; simp [h]⟩
      · cases hc : data.get "cards" with
        | arr l =>
          refine ⟨l, ?_⟩
          unfold deckCards
          rw [hc]
          dsimp only
          split
          · rfl
          · rename_i hh
            simp [Json.pyTruthy] at hh
            simp [hh]
        | _ => (rw [hc] at h; simp [Json.isArr] at h)
    obtain ⟨l, hdc⟩ := hdc
    intro hmem
    unfold validateDeckFile at hmem
    simp only [hload, Bool.false_eq_true, if_false, hobj, Bool.not_true] at hmem
    rw [hfaction] at hmem
    dsimp only at hmem
    rw [hdc] at hmem
    rcases hhp : heroPhase tree idx (data.get "hero_id") df with
      ⟨hF, hfac, idx1, lk1, e5⟩
    rw [hhp] at hmem
    have hFshape := heroPhase_findings_shapes tree idx (data.get "hero_id") df
    rw [hhp] at hFshape
    cases e5 with
    | some e =>
      dsimp only at hmem
      rcases List.mem_append.1 hmem with hr | hr
      · obtain ⟨fn, h⟩ := mem_deckReqFindings hr
        simp at h
      · rcases hFshape _ hr with h | ⟨a, h⟩ | ⟨a, b, h⟩ | ⟨a, b, h⟩ <;> simp at h
    | none =>
      dsimp only at hmem
      cases hst : (deckLoop tree cfg.sameFactionAsHero (data.get "hero_id")
          hfac 0 l ⟨0, [], 0, 0, 0, idx1,
            deckReqFindings cfg data ++ hF, lk1, none⟩).err with
      | some e =>
        rw [hst] at hmem
        dsimp only at hmem
        rcases deckLoop_findings_shapes tree cfg.sameFactionAsHero
            (data.get "hero_id") hfac l 0 _ _ hmem with hr | ⟨j, hr⟩
        · rcases List.mem_append.1 hr with hr2 | hr2
          · obtain ⟨fn, h⟩ := mem_deckReqFindings hr2
            simp at h
          · rcases hFshape _ hr2 with h | ⟨a, h⟩ | ⟨a, b, h⟩ | ⟨a, b, h⟩ <;>
              simp at h
        · rcases hr with h | h | ⟨c, h⟩ | ⟨n, a, b, h⟩ | ⟨n, h⟩ <;> simp at h
      | none =>
        rw [hst] at hmem
        dsimp only at hmem
        rcases List.mem_append.1 hmem with hr | hr
        · rcases deckLoop_findings_shapes tree cfg.sameFactionAsHero
              (data.get "hero_id") hfac l 0 _ _ hr with hr1 | ⟨j, hr1⟩
          · rcases List.mem_append.1 hr1 with hr2 | hr2
            · obtain ⟨fn, h⟩ := mem_deckReqFindings hr2
              simp at h
            · rcases hFshape _ hr2 with h | ⟨a, h⟩ | ⟨a, b, h⟩ | ⟨a, b, h⟩ <;>
                simp at h
          · rcases hr1 with h | h | ⟨c, h⟩ | ⟨n, a, b, h⟩ | ⟨n, h⟩ <;> simp at h
        · rcases mem_deckAggregates_shapes cfg _ _ hr with ⟨a, b, c, h⟩ |
            ⟨n, a, b, h⟩ | ⟨a, b, h⟩ | ⟨a, b, h⟩ | ⟨a, h⟩ <;> simp at h

/-- Witness for C7 (amended): the deck whose `cards` value is the non-empty
string `"x"` is truthy and not a sequence, so the validator stops with
exactly the cards-must-be-a-list ERROR. -/
theorem claim7_cards_gate_witness :
    validateDeckFile exDeckRule [] [] (Json.obj [("cards", Json.str "x")]) =
      ⟨[errF .cardsMustBeList], [], [], none⟩ :=
  (claim7_cards_gate exDeckRule [] [] (Json.obj [("cards", Json.str "x")]) ""
    (by decide) (by decide) (by decide)).1 ⟨by decide, by decide⟩

/-- The loop body appends only truthy ids to the lookup log, in every
branch. -/
theorem entryStep_lookups_shapes (tree : List Json) (sfh : Bool) (hid : Json)
    (hf : String) (i : Nat) (e : Json) (st : LoopSt) :
    ∀ c ∈ (entryStep tree sfh hid hf i e st).lookups,
      c ∈ st.lookups ∨ c.pyTruthy = true := by
  intro c hc
  unfold entryStep at hc
  dsimp only at hc
  split at hc
  · exact .inl hc
  · split at hc
    · exact .inl hc
    · rename_i h2
      simp only [Bool.or_eq_true, not_or, Bool.not_eq_true,
        Bool.not_eq_false] at h2
      repeat' split at hc
      all_goals
        rcases List.mem_append.1 hc with hr | hr
      all_goals
        first
        | exact .inl hr
        | (simp only [List.mem_singleton] at hr
           subst hr
           exact .inr (by simpa using h2.1))

/-- The whole loop appends only truthy ids to the lookup log. -/
theorem deckLoop_lookups_shapes (tree : List Json) (sfh : Bool) (hid : Json)
    (hf : String) :
    ∀ (es : List Json) (i : Nat) (st : LoopSt),
      ∀ c ∈ (deckLoop tree sfh hid hf i es st).lookups,
        c ∈ st.lookups ∨ c.pyTruthy = true
  | [], _, st => by intro c hc; exact .inl (by simpa [deckLoop] using hc)
  | e :: es, i, st => by
    intro c hc
    unfold deckLoop at hc
    cases hse : st.err.isSome with
    | true => exact .inl (by simpa [hse] using hc)
    | false =>
      simp only [hse, Bool.false_eq_true, if_false] at hc
      rcases deckLoop_lookups_shapes tree sfh hid hf es (i + 1)
          (entryStep tree sfh hid hf i e st) c hc with hr | hr
      · exact entryStep_lookups_shapes tree sfh hid hf i e st c hr
      · exact .inr hr

/-- **C8.**  Every well-shaped deck card entry whose `card_id` resolves (in
the Card Index as replayed up to that entry) to a card whose normalized type
is `"token"` receives the per-entry token ERROR, whatever the other deck
constraints say (nothing about them is assumed here). -/
theorem claim8_token_error (cfg : DeckRule) (tree : List Json) (idx : Index)
    (data : Json) (l : List Json) (i : Nat) (e m : Json)
    (hload : loadFailed data = false) (hobj : data.isObj = true)
    (hcards : deckCards data = Json.arr l)
    (herr : (validateDeckFile cfg tree idx data).err = none)
    (hi : l.get? i = some e)
    (hws : wellShaped e = true)
    (hres : ∃ idx2 s, loadCardMeta tree
      (replayIdx tree (l.take i) (heroIdxAfter tree idx (data.get "hero_id")))
      (e.get "card_id") = .ok (some m, idx2, s))
    (htok : normType (m.getD "type" (.str "")) = .ok "token") :
    errF (.cardIsToken i (pyNameOf m (e.get "card_id"))) ∈
      (validateDeckFile cfg tree idx data).findings := by
  obtain ⟨df, hF, hfac, idx1, lk1, st, hup, hhp, hst, hsterr, heq⟩ :=
    validateDeckFile_run cfg tree idx data l hload hobj hcards herr
  rw [heq]
  have hidx1 : idx1 = heroIdxAfter tree idx (data.get "hero_id") := by
    have := heroPhase_idx tree idx (data.get "hero_id") df
    rw [hhp] at this
    exact this
  have hsterr' : (deckLoop tree cfg.sameFactionAsHero (data.get "hero_id")
      hfac 0 l ⟨0, [], 0, 0, 0, idx1, deckReqFindings cfg data ++ hF, lk1,
        none⟩).err = none := by rw [← hst]; exact hsterr
  have hres' : ∃ idx2 s, loadCardMeta tree
      (replayIdx tree (l.take i)
        (⟨0, [], 0, 0, 0, idx1, deckReqFindings cfg data ++ hF, lk1,
          none⟩ : LoopSt).idx)
      (e.get "card_id") = .ok (some m, idx2, s) := by
    simpa [hidx1] using hres
  have := deckLoop_token tree cfg.sameFactionAsHero (data.get "hero_id")
    hfac l 0 _ i e m hsterr' hi hws hres' htok
  rw [hst]
  apply List.mem_append.2
  exact .inl (by simpa using this)

/-- Witness for C8 at the spec's concrete scenario C: the token card `C2`
listed at position 1 yields the token ERROR. -/
theorem claim8_token_error_witness :
    errF (.cardIsToken 1 (pyNameOf exTokenCard
        ((Json.obj [("card_id", Json.str "C2"), ("qty", Json.num 1)]).get
          "card_id"))) ∈
      (validateDeckFile exDeckRule exTree [] exDeckC).findings :=
  claim8_token_error exDeckRule exTree [] exDeckC exCardsC 1
    (Json.obj [("card_id", Json.str "C2"), ("qty", Json.num 1)]) exTokenCard
    (by decide) (by decide) (by decide) (by decide) (by decide) (by decide)
    ⟨[(Json.str "C1", exHeroCard), (Json.str "C2", exTokenCard)], true,
      by decide⟩ (by decide)

/-- **C10.**  A deck object whose `hero_id` field is present but falsy is
treated as having a missing hero: the single missing-hero ERROR is emitted,
no hero-not-found or non-hero-type ERROR appears, no deck-faction-mismatch
ERROR appears, the hero faction stays unknown so no per-card
faction-mismatch ERROR appears, and the hero id is never passed to the
card-lookup (no Card Index lookup, no lazy tree search). -/
theorem claim10_falsy_hero (cfg : DeckRule) (tree : List Json) (idx : Index)
    (data : Json) (df : String)
    (hload : loadFailed data = false) (hobj : data.isObj = true)
    (_hkey : data.hasKey "hero_id" = true)
    (hfal : (data.get "hero_id").pyTruthy = false)
    (hfaction : pyUpperOrEmpty (data.get "faction") = .ok df)
    (hcards : (deckCards data).isArr = true) :
    errF .heroIdMissing ∈ (validateDeckFile cfg tree idx data).findings ∧
    (∀ h, errF (.heroNotFound h) ∉ (validateDeckFile cfg tree idx data).findings) ∧
    (∀ h t, errF (.heroNotHero h t) ∉ (validateDeckFile cfg tree idx data).findings) ∧
    (∀ a b, errF (.deckFactionMismatch a b) ∉
      (validateDeckFile cfg tree idx data).findings) ∧
    (∀ j n a b, errF (.cardFactionMismatch j n a b) ∉
      (validateDeckFile cfg tree idx data).findings) ∧
    data.get "hero_id" ∉ (validateDeckFile cfg tree idx data).lookups := by
  obtain ⟨l, hdc⟩ : ∃ l, deckCards data = Json.arr l := by
    cases hc : deckCards data with
    | arr l => exact ⟨l, rfl⟩
    | _ => (rw [hc] at hcards; simp [Json.isArr] at hcards)
  have hhp : heroPhase tree idx (data.get "hero_id") df =
      ([errF .heroIdMissing], "", idx, [], none) :=
    heroPhase_falsy tree idx (data.get "hero_id") df hfal
  have hred : ∀ st0, st0 = (⟨0, [], 0, 0, 0, idx,
      deckReqFindings cfg data ++ [errF .heroIdMissing], [], none⟩ : LoopSt) →
      (validateDeckFile cfg tree idx data).findings =
        (let st := deckLoop tree cfg.sameFactionAsHero (data.get "hero_id")
          "" 0 l st0
        match st.err with
        | some _ => st.findings
        | none => st.findings ++ deckAggregates cfg st) ∧
      (validateDeckFile cfg tree idx data).lookups =
        (let st := deckLoop tree cfg.sameFactionAsHero (data.get "hero_id")
          "" 0 l st0
        st.lookups) := by
    intro st0 hst0
    subst hst0
    unfold validateDeckFile
    simp only [hload, Bool.false_eq_true, if_false, hobj, Bool.not_true]
    rw [hfaction]
    dsimp only
    rw [hdc, hhp]
    dsimp only
    cases (deckLoop tree cfg.sameFactionAsHero (data.get "hero_id") "" 0 l
        ⟨0, [], 0, 0, 0, idx, deckReqFindings cfg data ++ [errF .heroIdMissing],
          [], none⟩).err with
    | some e => exact ⟨rfl, rfl⟩
    | none => exact ⟨rfl, rfl⟩
  obtain ⟨hfnd, hlk⟩ := hred _ rfl
  have hshapes : ∀ f ∈ (validateDeckFile cfg tree idx data).findings,
      (∃ fn, f = errF (.deckMissingField fn)) ∨ f = errF .heroIdMissing ∨
      (∃ j, deckLoopMsg j f) ∨
      ((∃ a b c, f = errF (.deckSize a b c)) ∨
       (∃ n a b, f = errF (.tooManyCopies n a b)) ∨
       (∃ a b, f = errF (.tooManyRare a b)) ∨
       (∃ a b, f = errF (.tooManyUnique a b)) ∨
       (∃ a, f = errF (.heroCopies a))) := by
    intro f hfm
    rw [hfnd] at hfm
    dsimp only at hfm
    have hbase : f ∈ (deckLoop tree cfg.sameFactionAsHero (data.get "hero_id")
        "" 0 l ⟨0, [], 0, 0, 0, idx,
          deckReqFindings cfg data ++ [errF .heroIdMissing], [],
          none⟩).findings → _ := fun hin =>
      deckLoop_findings_shapes tree cfg.sameFactionAsHero (data.get "hero_id")
        "" l 0 _ f hin
    revert hfm
    cases (deckLoop tree cfg.sameFactionAsHero (data.get "hero_id") "" 0 l
        ⟨0, [], 0, 0, 0, idx, deckReqFindings cfg data ++ [errF .heroIdMissing],
          [], none⟩).err with
    | some e =>
      intro hfm
      rcases hbase hfm with hr | ⟨j, hr⟩
      · rcases List.mem_append.1 hr with hr2 | hr2
        · exact .inl (mem_deckReqFindings hr2)
        · simp only [List.mem_singleton] at hr2
          exact .inr (.inl hr2)
      · exact .inr (.inr (.inl ⟨j, hr⟩))
    | none =>
      intro hfm
      rcases List.mem_append.1 hfm with hr | hr
      · rcases hbase hr with hr1 | ⟨j, hr1⟩
        · rcases List.mem_append.1 hr1 with hr2 | hr2
          · exact .inl (mem_deckReqFindings hr2)
          · simp only [List.mem_singleton] at hr2
            exact .inr (.inl hr2)
        · exact .inr (.inr (.inl ⟨j, hr1⟩))
      · exact .inr (.inr (.inr (mem_deckAggregates_shapes cfg _ f hr)))
  refine ⟨?_, ?_, ?_, ?_, ?_, ?_⟩
  · rw [hfnd]
    dsimp only
    obtain ⟨ex, hex⟩ := deckLoop_findings_mono tree cfg.sameFactionAsHero
      (data.get "hero_id") "" l 0 ⟨0, [], 0, 0, 0, idx,
        deckReqFindings cfg data ++ [errF .heroIdMissing], [], none⟩
    cases (deckLoop tree cfg.sameFactionAsHero (data.get "hero_id") "" 0 l
        ⟨0, [], 0, 0, 0, idx, deckReqFindings cfg data ++ [errF .heroIdMissing],
          [], none⟩).err with
    | some e =>
      rw [hex]
      exact List.mem_append.2 (.inl (List.mem_append.2 (.inr (by simp))))
    | none =>
      refine List.mem_append.2 (.inl ?_)
      rw [hex]
      exact List.mem_append.2 (.inl (List.mem_append.2 (.inr (by simp))))
  · intro h hmem
    rcases hshapes _ hmem with ⟨fn, hx⟩ | hx | ⟨j, hx | hx | ⟨c, hx⟩ |
      ⟨n, a, b, hx⟩ | ⟨n, hx⟩⟩ | ⟨a, b, c, hx⟩ | ⟨n, a, b, hx⟩ | ⟨a, b, hx⟩ |
      ⟨a, b, hx⟩ | ⟨a, hx⟩ <;> simp at hx
  · intro h t hmem
    rcases hshapes _ hmem with ⟨fn, hx⟩ | hx | ⟨j, hx | hx | ⟨c, hx⟩ |
      ⟨n, a, b, hx⟩ | ⟨n, hx⟩⟩ | ⟨a, b, c, hx⟩ | ⟨n, a, b, hx⟩ | ⟨a, b, hx⟩ |
      ⟨a, b, hx⟩ | ⟨a, hx⟩ <;> simp at hx
  · intro a b hmem
    rcases hshapes _ hmem with ⟨fn, hx⟩ | hx | ⟨j, hx | hx | ⟨c, hx⟩ |
      ⟨n, a2, b2, hx⟩ | ⟨n, hx⟩⟩ | ⟨a2, b2, c, hx⟩ | ⟨n, a2, b2, hx⟩ |
      ⟨a2, b2, hx⟩ | ⟨a2, b2, hx⟩ | ⟨a2, hx⟩ <;> simp at hx
  · intro j n a b hmem
    have hfm := hmem
    rw [hfnd] at hfm
    dsimp only at hfm
    revert hfm
    cases (deckLoop tree cfg.sameFactionAsHero (data.get "hero_id") "" 0 l
        ⟨0, [], 0, 0, 0, idx, deckReqFindings cfg data ++ [errF .heroIdMissing],
          [], none⟩).err with
    | some e =>
      intro hfm
      have := deckLoop_no_factionMismatch tree cfg.sameFactionAsHero
        (data.get "hero_id") l 0 _ j n a b hfm
      rcases List.mem_append.1 this with hr | hr
      · obtain ⟨fn, hx⟩ := mem_deckReqFindings hr
        simp at hx
      · simp at hr
    | none =>
      intro hfm
      rcases List.mem_append.1 hfm with hr | hr
      · have := deckLoop_no_factionMismatch tree cfg.sameFactionAsHero
          (data.get "hero_id") l 0 _ j n a b hr
        rcases List.mem_append.1 this with hr2 | hr2
        · obtain ⟨fn, hx⟩ := mem_deckReqFindings hr2
          simp at hx
        · simp at hr2
      · rcases mem_deckAggregates_shapes cfg _ _ hr with ⟨a2, b2, c, hx⟩ |
          ⟨n2, a2, b2, hx⟩ | ⟨a2, b2, hx⟩ | ⟨a2, b2, hx⟩ | ⟨a2, hx⟩ <;>
          simp at hx
  · intro hmem
    rw [hlk] at hmem
    dsimp only at hmem
    rcases deckLoop_lookups_shapes tree cfg.sameFactionAsHero
        (data.get "hero_id") "" l 0 _ _ hmem with hr | hr
    · simp at hr
    · rw [hfal] at hr
      exact Bool.noConfusion hr

/-- Witness for C10: the deck with `hero_id: ""` gets the missing-hero
ERROR, none of the hero-resolution or faction ERRORs, and its hero id is
never looked up. -/
theorem claim10_falsy_hero_witness :
    errF .heroIdMissing ∈ (validateDeckFile exDeckRule exTree [] exDeckNoHero).findings ∧
    (∀ h, errF (.heroNotFound h) ∉
      (validateDeckFile exDeckRule exTree [] exDeckNoHero).findings) ∧
    (∀ h t, errF (.heroNotHero h t) ∉
      (validateDeckFile exDeckRule exTree [] exDeckNoHero).findings) ∧
    (∀ a b, errF (.deckFactionMismatch a b) ∉
      (validateDeckFile exDeckRule exTree [] exDeckNoHero).findings) ∧
    (∀ j n a b, errF (.cardFactionMismatch j n a b) ∉
      (validateDeckFile exDeckRule exTree [] exDeckNoHero).findings) ∧
    exDeckNoHero.get "hero_id" ∉
      (validateDeckFile exDeckRule exTree [] exDeckNoHero).lookups :=
  claim10_falsy_hero exDeckRule exTree [] exDeckNoHero "" (by decide)
    (by decide) (by decide) (by decide) (by decide) (by decide)
